import Mathlib

/-!
Verification development for BoltConn's flow plane.

Each section embeds one Rust source unit as executable Lean definitions and
proves the specified properties about them:
* src/boltconn/src/adapter/chain.rs        — chain executor (carrier switching)
* src/boltconn/src/transport/smol.rs       — userspace IP stack socket tasks
* src/boltconn/src/proxy/http_inbound.rs   — HTTP CONNECT inbound
* src/boltconn/src/dispatch/dispatching.rs — rule engine, builder, groups

Helper modules that are not part of the sources (rule-line parsers, the
temporary-list container, proxy capability lookups) are modelled from the
specification and kept abstract wherever their internals do not matter.
-/

set_option maxHeartbeats 1000000

namespace BoltConn

/-! ## Chain executor (src/boltconn/src/adapter/chain.rs) -/

/-- TcpTransferType from the adapter outbound contract. -/
inductive TcpTransferType where
  | PlainTcp
  | TcpOverUdp
deriving DecidableEq, Repr

/-- UdpTransferType from the adapter outbound contract. -/
inductive UdpTransferType where
  | PlainUdp
  | UdpOverTcp
  | NotSupported
deriving DecidableEq, Repr

/-- The transfer descriptor of one outbound hop, as returned by
outbound_type().tcp_transfer_type() / .udp_transfer_type(). -/
structure OutboundKind where
  tcpT : TcpTransferType
  udpT : UdpTransferType
deriving DecidableEq, Repr

/-- Observable calls made by ChainOutbound::spawn to its hops. -/
inductive ChainEv where
  /-- spawn_tcp_with_outbound on hop idx; the flag is whether the hop was
  handed a udp outbound (Some udp, None tcp), i.e. the TcpOverUdp branch. -/
  | tcpWithOutbound (idx : Nat) (givesUdpOutbound : Bool)
  /-- spawn_udp_with_outbound on hop idx; the flag is whether the hop was
  handed a tcp outbound (UdpOverTcp branch); plus the not_first_jump flag. -/
  | udpWithOutbound (idx : Nat) (givesTcpOutbound : Bool) (notFirstJump : Bool)
  /-- terminal spawn_tcp on hop idx. -/
  | finalSpawnTcp (idx : Nat)
  /-- terminal spawn_udp on hop idx with its tunnel_only argument. -/
  | finalSpawnUdp (idx : Nat) (tunnelOnly : Bool)
deriving DecidableEq, Repr

/-- Mutable loop state of ChainOutbound::spawn: use_tcp, the two inbound
connector containers (connectors are numbered as they are created), and
not_first_jump.  fresh numbers the next connector pair. -/
structure ChainSt where
  useTcp : Bool
  tcpCont : Option Nat
  udpCont : Option Nat
  notFirstJump : Bool
  fresh : Nat
deriving DecidableEq, Repr

/-- One iteration of the for-loop over first_part in ChainOutbound::spawn.
none models a panicking .unwrap() on an empty container. -/
def hopStep (h : OutboundKind) (st : ChainSt) (idx : Nat) : Option (ChainSt × ChainEv) :=
  if st.useTcp then
    match st.tcpCont with
    | none => none
    | some _ =>
      if h.tcpT = TcpTransferType.TcpOverUdp then
        some ({ useTcp := false, tcpCont := none, udpCont := some st.fresh,
                notFirstJump := true, fresh := st.fresh + 1 },
              ChainEv.tcpWithOutbound idx true)
      else
        some ({ useTcp := true, tcpCont := some st.fresh, udpCont := st.udpCont,
                notFirstJump := true, fresh := st.fresh + 1 },
              ChainEv.tcpWithOutbound idx false)
  else
    match st.udpCont with
    | none => none
    | some _ =>
      if h.udpT = UdpTransferType.UdpOverTcp then
        some ({ useTcp := true, tcpCont := some st.fresh, udpCont := none,
                notFirstJump := true, fresh := st.fresh + 1 },
              ChainEv.udpWithOutbound idx true st.notFirstJump)
      else
        some ({ useTcp := false, tcpCont := st.tcpCont, udpCont := some st.fresh,
                notFirstJump := true, fresh := st.fresh + 1 },
              ChainEv.udpWithOutbound idx false st.notFirstJump)

namespace ChainOutbound

/-- The body of ChainOutbound::spawn after split_at: process every hop but the
last through hopStep, then invoke the terminal hop on the remaining container.
The empty-chain case is none (split_at(len - 1) underflows). -/
def spawnGo : ChainSt → Nat → List OutboundKind → Option (List ChainEv)
  | _, _, [] => none
  | st, idx, [_] =>
    if st.useTcp then
      match st.tcpCont with
      | some _ => some [ChainEv.finalSpawnTcp idx]
      | none => none
    else
      match st.udpCont with
      | some _ => some [ChainEv.finalSpawnUdp idx true]
      | none => none
  | st, idx, h :: b :: rest =>
    match hopStep h st idx with
    | none => none
    | some (st2, ev) =>
      match spawnGo st2 (idx + 1) (b :: rest) with
      | none => none
      | some evs => some (ev :: evs)

/-- ChainOutbound::spawn: carrier and containers initialised from the call
site. Connector 0 is the inbound handed in by the caller. -/
def spawn (useTcp : Bool) (hops : List OutboundKind) : Option (List ChainEv) :=
  spawnGo
    { useTcp := useTcp,
      tcpCont := if useTcp then some 0 else none,
      udpCont := if useTcp then none else some 0,
      notFirstJump := false, fresh := 1 } 0 hops

/-- ChainOutbound::spawn_tcp calls spawn(true, Some(inbound), None). -/
def spawn_tcp (hops : List OutboundKind) : Option (List ChainEv) :=
  spawn true hops

/-- ChainOutbound::spawn_udp calls spawn(false, None, Some(inbound)). -/
def spawn_udp (hops : List OutboundKind) : Option (List ChainEv) :=
  spawn false hops

/-- io::ErrorKind values the chain adapter can produce. -/
inductive IOErrorKind where
  | InvalidData
deriving DecidableEq, Repr

/-- ChainOutbound::spawn_tcp_with_outbound: unconditionally
Err(io::ErrorKind::InvalidData). Arguments are ignored by the source. -/
def spawn_tcp_with_outbound (_inbound : Nat) (_tcpOutbound _udpOutbound : Option Nat) :
    Except IOErrorKind Unit :=
  Except.error IOErrorKind.InvalidData

/-- ChainOutbound::spawn_udp_with_outbound: unconditionally
Err(io::ErrorKind::InvalidData). Arguments are ignored by the source. -/
def spawn_udp_with_outbound (_inbound : Nat) (_tcpOutbound _udpOutbound : Option Nat)
    (_tunnelOnly : Bool) : Except IOErrorKind Unit :=
  Except.error IOErrorKind.InvalidData

end ChainOutbound

/-- The carrier transition described by the specification: a Tcp carrier flips
to Udp on a TcpOverUdp hop, a Udp carrier flips to Tcp on a UdpOverTcp hop,
otherwise it is unchanged. true stands for the Tcp carrier. -/
def carrierStep (c : Bool) (h : OutboundKind) : Bool :=
  if c then
    if h.tcpT = TcpTransferType.TcpOverUdp then false else true
  else
    if h.udpT = UdpTransferType.UdpOverTcp then true else false

/-- The event trace the specification prescribes for the chain executor,
written from the spec text: each non-terminal hop is invoked according to the
current carrier, the carrier evolves by carrierStep, not_first_jump is the
flag nf (set after the first hop), and the terminal hop is invoked by the
final carrier (spawn_udp with tunnel_only = true). -/
def specTraceGo (c : Bool) (nf : Bool) (idx : Nat) : List OutboundKind → List ChainEv
  | [] => []
  | [_] => [if c then ChainEv.finalSpawnTcp idx else ChainEv.finalSpawnUdp idx true]
  | h :: b :: rest =>
    (if c then ChainEv.tcpWithOutbound idx (decide (h.tcpT = TcpTransferType.TcpOverUdp))
     else ChainEv.udpWithOutbound idx (decide (h.udpT = UdpTransferType.UdpOverTcp)) nf)
    :: specTraceGo (carrierStep c h) true (idx + 1) (b :: rest)

/-- Invariant-carrying refinement lemma: whenever the container matching the
current carrier is present, the executor produces exactly the specified trace. -/
theorem spawnGo_eq_specTrace (hops : List OutboundKind) :
    ∀ (st : ChainSt) (idx : Nat), hops ≠ [] →
    (st.useTcp = true → st.tcpCont.isSome) →
    (st.useTcp = false → st.udpCont.isSome) →
    ChainOutbound.spawnGo st idx hops =
      some (specTraceGo st.useTcp st.notFirstJump idx hops) := by
  induction hops with
  | nil => intro st idx hne _ _; exact absurd rfl hne
  | cons h rest ih =>
    intro st idx _ hTcp hUdp
    cases rest with
    | nil =>
      cases hu : st.useTcp with
      | true =>
        have := hTcp hu
        cases hc : st.tcpCont with
        | none => rw [hc] at this; simp [Option.isSome] at this
        | some k => simp [ChainOutbound.spawnGo, specTraceGo, hu, hc]
      | false =>
        have := hUdp hu
        cases hc : st.udpCont with
        | none => rw [hc] at this; simp [Option.isSome] at this
        | some k => simp [ChainOutbound.spawnGo, specTraceGo, hu, hc]
    | cons b rest2 =>
      cases hu : st.useTcp with
      | true =>
        have hsome := hTcp hu
        cases hc : st.tcpCont with
        | none => rw [hc] at hsome; simp [Option.isSome] at hsome
        | some k =>
          by_cases ht : h.tcpT = TcpTransferType.TcpOverUdp
          · have hrec := ih
              { useTcp := false, tcpCont := none, udpCont := some st.fresh,
                notFirstJump := true, fresh := st.fresh + 1 } (idx + 1)
              (by simp) (by intro hco; simp at hco) (by intro _; simp)
            simp [ChainOutbound.spawnGo, hopStep, hu, hc, ht, hrec, specTraceGo,
              carrierStep]
          · have hrec := ih
              { useTcp := true, tcpCont := some st.fresh, udpCont := st.udpCont,
                notFirstJump := true, fresh := st.fresh + 1 } (idx + 1)
              (by simp) (by intro _; simp) (by intro hco; simp at hco)
            simp [ChainOutbound.spawnGo, hopStep, hu, hc, ht, hrec, specTraceGo,
              carrierStep]
      | false =>
        have hsome := hUdp hu
        cases hc : st.udpCont with
        | none => rw [hc] at hsome; simp [Option.isSome] at hsome
        | some k =>
          by_cases ht : h.udpT = UdpTransferType.UdpOverTcp
          · have hrec := ih
              { useTcp := true, tcpCont := some st.fresh, udpCont := none,
                notFirstJump := true, fresh := st.fresh + 1 } (idx + 1)
              (by simp) (by intro _; simp) (by intro hco; simp at hco)
            simp [ChainOutbound.spawnGo, hopStep, hu, hc, ht, hrec, specTraceGo,
              carrierStep]
          · have hrec := ih
              { useTcp := false, tcpCont := st.tcpCont, udpCont := some st.fresh,
                notFirstJump := true, fresh := st.fresh + 1 } (idx + 1)
              (by simp) (by intro hco; simp at hco) (by intro _; simp)
            simp [ChainOutbound.spawnGo, hopStep, hu, hc, ht, hrec, specTraceGo,
              carrierStep]

theorem getLast?_cons_of_ne_nil {α : Type} (a : α) (l : List α) (h : l ≠ []) :
    (a :: l).getLast? = l.getLast? := by
  cases l with
  | nil => exact absurd rfl h
  | cons b t => simp [List.getLast?_cons_cons]

theorem specTraceGo_ne_nil (hops : List OutboundKind) (c nf : Bool) (idx : Nat)
    (h : hops ≠ []) : specTraceGo c nf idx hops ≠ [] := by
  cases hops with
  | nil => exact absurd rfl h
  | cons a t =>
    cases t with
    | nil => simp [specTraceGo]
    | cons b t2 => simp [specTraceGo]

/-- The final element of the specified trace is determined by folding
carrierStep over the non-terminal hops. -/
theorem specTraceGo_getLast (hops : List OutboundKind) :
    ∀ (c nf : Bool) (idx : Nat), hops ≠ [] →
    (specTraceGo c nf idx hops).getLast? =
      some (if hops.dropLast.foldl carrierStep c
            then ChainEv.finalSpawnTcp (idx + hops.length - 1)
            else ChainEv.finalSpawnUdp (idx + hops.length - 1) true) := by
  induction hops with
  | nil => intro c nf idx hne; exact absurd rfl hne
  | cons h rest ih =>
    intro c nf idx _
    cases rest with
    | nil =>
      cases c <;> simp [specTraceGo]
    | cons b rest2 =>
      have hrec := ih (carrierStep c h) true (idx + 1) (by simp)
      have hlen : idx + 1 + (b :: rest2).length - 1 = idx + (h :: b :: rest2).length - 1 := by
        simp [List.length]; omega
      rw [hlen] at hrec
      have hdrop : (h :: b :: rest2).dropLast = h :: (b :: rest2).dropLast := by
        simp [List.dropLast]
      cases c <;>
        · simp only [specTraceGo, hdrop, List.foldl_cons]
          rw [getLast?_cons_of_ne_nil _ _ (specTraceGo_ne_nil _ _ _ _ (by simp))]
          exact hrec

/-- C1: for every non-empty adapter chain, the chain executor processes hops
in order with a carrier state initialised from the call site (spawn_tcp
starts Tcp, spawn_udp starts Udp); a non-terminal TcpOverUdp hop flips the
carrier Tcp to Udp, a UdpOverTcp hop flips Udp to Tcp, otherwise the carrier
is unchanged; the terminal hop is invoked via spawn_tcp exactly when the
final carrier is Tcp and via spawn_udp with tunnel_only = true exactly when
it is Udp. -/
theorem claim_C1 (hops : List OutboundKind) (hne : hops ≠ []) :
    ChainOutbound.spawn_tcp hops = some (specTraceGo true false 0 hops) ∧
    ChainOutbound.spawn_udp hops = some (specTraceGo false false 0 hops) ∧
    (∀ c nf : Bool, (specTraceGo c nf 0 hops).getLast? =
      some (if hops.dropLast.foldl carrierStep c
            then ChainEv.finalSpawnTcp (hops.length - 1)
            else ChainEv.finalSpawnUdp (hops.length - 1) true)) := by
  refine ⟨?_, ?_, ?_⟩
  · exact spawnGo_eq_specTrace hops _ 0 hne (by intro _; simp) (by intro h; simp at h)
  · exact spawnGo_eq_specTrace hops _ 0 hne (by intro h; simp at h) (by intro _; simp)
  · intro c nf
    have := specTraceGo_getLast hops c nf 0 hne
    simpa using this

theorem claim_C1_witness :
    ChainOutbound.spawn_tcp
      [⟨TcpTransferType.TcpOverUdp, UdpTransferType.PlainUdp⟩,
       ⟨TcpTransferType.PlainTcp, UdpTransferType.UdpOverTcp⟩,
       ⟨TcpTransferType.PlainTcp, UdpTransferType.PlainUdp⟩] =
    some (specTraceGo true false 0
      [⟨TcpTransferType.TcpOverUdp, UdpTransferType.PlainUdp⟩,
       ⟨TcpTransferType.PlainTcp, UdpTransferType.UdpOverTcp⟩,
       ⟨TcpTransferType.PlainTcp, UdpTransferType.PlainUdp⟩]) :=
  (claim_C1 _ (by decide)).1

/-- C10: for every ChainOutbound and every combination of arguments,
spawn_tcp_with_outbound and spawn_udp_with_outbound return Err with kind
InvalidData and perform no other action: a chain is only ever the call-site
entry, never a hop composed inside another chain. -/
theorem claim_C10 :
    ∀ (inbound : Nat) (tcpOut udpOut : Option Nat) (tunnelOnly : Bool),
      ChainOutbound.spawn_tcp_with_outbound inbound tcpOut udpOut =
        Except.error ChainOutbound.IOErrorKind.InvalidData ∧
      ChainOutbound.spawn_udp_with_outbound inbound tcpOut udpOut tunnelOnly =
        Except.error ChainOutbound.IOErrorKind.InvalidData :=
  fun _ _ _ _ => ⟨rfl, rfl⟩

/-! ## Userspace IP stack socket tasks (src/boltconn/src/transport/smol.rs) -/

/-- A pooled packet buffer handle: identity plus the len cursor.  as_ready()
is its first len bytes. -/
structure PktBuf where
  id : Nat
  len : Nat
deriving DecidableEq, Repr

/-- The smoltcp TCP socket states this file inspects. -/
inductive TcpSockState where
  | Closed
  | Established
  | CloseWait
  | FinWait1
deriving DecidableEq, Repr

/-- Model of the smoltcp TCP socket as seen by TcpConnTask::try_send:
whether it can send, its state, and how send_slice behaves on a slice of a
given length (some sent = Ok(sent), none = Err). -/
structure SmolTcpSocketM where
  canSend : Bool
  state : TcpSockState
  sendAccept : Nat → Option Nat

/-- TcpConnTask fields relevant to try_send: the one-slot carry-over
remain_to_send (buffer, start offset) and the flume ingress queue rx
(rxClosed models a disconnected sender, flume's TryRecvError::Disconnected). -/
structure TcpConnTask where
  remain_to_send : Option (PktBuf × Nat)
  rxq : List PktBuf
  rxClosed : Bool

/-- Runtime errors of the socket tasks. -/
inductive SmolIOErr where
  | ConnectionAborted
deriving DecidableEq, Repr

/-- Observable outcome of one TcpConnTask::try_send call. -/
structure TrySendOut where
  task : TcpConnTask
  socketClosed : Bool
  released : List PktBuf
  sentFrom : Option (PktBuf × Nat × Nat)
  hasActivity : Bool

/-- TcpConnTask::try_send, translated clause by clause: when the socket can
send, a carry-over is sent first (from its start offset); otherwise one
buffer is fetched from rx; a short send stores (buffer, start + sent) back
into remain_to_send, a complete send releases the buffer to the pool; a
send_slice error or a disconnected rx is ConnectionAborted; finally a
CloseWait socket is closed. -/
def TcpConnTask.try_send (t : TcpConnTask) (s : SmolTcpSocketM) :
    Except SmolIOErr TrySendOut :=
  let core : Except SmolIOErr (TcpConnTask × List PktBuf × Option (PktBuf × Nat × Nat) × Bool) :=
    if s.canSend then
      match t.remain_to_send with
      | some (buf, start) =>
        match s.sendAccept (buf.len - start) with
        | some sent =>
          if start + sent < buf.len then
            Except.ok ({ t with remain_to_send := some (buf, sent + start) },
              [], some (buf, start, sent), true)
          else
            Except.ok ({ t with remain_to_send := none },
              [buf], some (buf, start, sent), true)
        | none => Except.error SmolIOErr.ConnectionAborted
      | none =>
        match t.rxq with
        | buf :: rest =>
          match s.sendAccept buf.len with
          | some sent =>
            if sent < buf.len then
              Except.ok ({ t with remain_to_send := some (buf, sent), rxq := rest },
                [], some (buf, 0, sent), true)
            else
              Except.ok ({ t with remain_to_send := none, rxq := rest },
                [buf], some (buf, 0, sent), true)
          | none => Except.error SmolIOErr.ConnectionAborted
        | [] =>
          if t.rxClosed then Except.error SmolIOErr.ConnectionAborted
          else Except.ok (t, [], none, false)
    else Except.ok (t, [], none, false)
  match core with
  | Except.error e => Except.error e
  | Except.ok (t2, rel, sf, act) =>
    Except.ok { task := t2, socketClosed := decide (s.state = TcpSockState.CloseWait),
                released := rel, sentFrom := sf, hasActivity := act }

/-- An endpoint is an (address, port) pair. -/
abbrev IpEndpointM := Nat × Nat

/-- UdpConnTask fields relevant to try_recv: the registered dest endpoint and
the last_active instant. -/
structure UdpConnTask where
  dest : IpEndpointM
  last_active : Nat
deriving DecidableEq, Repr

/-- Model of the smoltcp UDP socket as seen by try_recv: whether it can
receive, and what recv_slice yields (some (size, endpoint) = Ok, none = Err). -/
structure SmolUdpSocketM where
  canRecv : Bool
  recvResult : Option (Nat × IpEndpointM)
deriving DecidableEq, Repr

/-- Observable outcome of one UdpConnTask::try_recv call. -/
structure UdpTryRecvOut where
  task : UdpConnTask
  delivered : Option PktBuf
  result : Bool
deriving DecidableEq, Repr

/-- UdpConnTask::try_recv: when the socket can receive and the back channel
has capacity, a buffer is obtained and filled from recv_slice; the datagram
is pushed to the back channel and last_active refreshed only when the source
endpoint equals dest; a mismatched datagram is discarded. -/
def UdpConnTask.try_recv (t : UdpConnTask) (s : SmolUdpSocketM) (backCapacity : Nat)
    (fresh : PktBuf) (now : Nat) : UdpTryRecvOut :=
  if s.canRecv = true ∧ 0 < backCapacity then
    match s.recvResult with
    | some (size, ep) =>
      if ep = t.dest then
        { task := { t with last_active := now },
          delivered := some { fresh with len := size }, result := true }
      else
        { task := t, delivered := none, result := false }
    | none => { task := t, delivered := none, result := false }
  else { task := t, delivered := none, result := false }

/-- C5: try_send sends from the stored carry-over before fetching from the
ingress queue; a short send stores the buffer back with the advanced offset
as the single carry-over and no bytes are dropped; a buffer is released to
the pool only once all of its bytes have been sent. -/
theorem claim_C5 (t : TcpConnTask) (s : SmolTcpSocketM) (out : TrySendOut)
    (hmono : ∀ n m, s.sendAccept n = some m → m ≤ n)
    (hwf : ∀ buf start, t.remain_to_send = some (buf, start) → start < buf.len)
    (hok : t.try_send s = Except.ok out) :
    (t.remain_to_send.isSome → out.task.rxq = t.rxq) ∧
    (∀ buf start, t.remain_to_send = some (buf, start) → s.canSend = true →
      ∃ sent, s.sendAccept (buf.len - start) = some sent ∧
        out.sentFrom = some (buf, start, sent) ∧
        (start + sent < buf.len →
          out.task.remain_to_send = some (buf, sent + start) ∧ out.released = []) ∧
        (start + sent = buf.len →
          out.task.remain_to_send = none ∧ out.released = [buf])) ∧
    (∀ buf rest, t.remain_to_send = none → t.rxq = buf :: rest → s.canSend = true →
      ∃ sent, s.sendAccept buf.len = some sent ∧ out.task.rxq = rest ∧
        out.sentFrom = some (buf, 0, sent) ∧
        (sent < buf.len →
          out.task.remain_to_send = some (buf, sent) ∧ out.released = []) ∧
        (sent = buf.len →
          out.task.remain_to_send = none ∧ out.released = [buf])) ∧
    (∀ buf, buf ∈ out.released →
      ∃ start sent, out.sentFrom = some (buf, start, sent) ∧ start + sent = buf.len) ∧
    (∀ buf start, out.task.remain_to_send = some (buf, start) → start < buf.len) := by
  by_cases hcs : s.canSend = true
  · cases hrem : t.remain_to_send with
    | some pr =>
      obtain ⟨buf, start⟩ := pr
      have hstart := hwf buf start hrem
      cases hsend : s.sendAccept (buf.len - start) with
      | none =>
        simp [TcpConnTask.try_send, hcs, hrem, hsend] at hok
      | some sent =>
        have hle : sent ≤ buf.len - start := hmono _ _ hsend
        by_cases hlt : start + sent < buf.len
        · simp [TcpConnTask.try_send, hcs, hrem, hsend, hlt] at hok
          subst hok
          refine ⟨fun _ => rfl, ?_, ?_, ?_, ?_⟩
          · intro b st hbs _
            cases hbs
            exact ⟨sent, hsend, rfl, fun _ => ⟨rfl, rfl⟩, fun he => absurd he (by omega)⟩
          · intro b r hnone _ _
            simp at hnone
          · intro b hb
            simp at hb
          · intro b st hbs
            simp only [Option.some.injEq, Prod.mk.injEq] at hbs
            obtain ⟨hb1, hb2⟩ := hbs
            subst hb1; subst hb2
            omega
        · simp [TcpConnTask.try_send, hcs, hrem, hsend, hlt] at hok
          subst hok
          have heq : start + sent = buf.len := by omega
          refine ⟨fun _ => rfl, ?_, ?_, ?_, ?_⟩
          · intro b st hbs _
            cases hbs
            exact ⟨sent, hsend, rfl, fun hl => absurd hl hlt, fun _ => ⟨rfl, rfl⟩⟩
          · intro b r hnone _ _
            simp at hnone
          · intro b hb
            simp only [List.mem_singleton] at hb
            subst hb
            exact ⟨start, sent, rfl, heq⟩
          · intro b st hbs
            simp at hbs
    | none =>
      cases hq : t.rxq with
      | cons buf rest =>
        cases hsend : s.sendAccept buf.len with
        | none =>
          simp [TcpConnTask.try_send, hcs, hrem, hq, hsend] at hok
        | some sent =>
          have hle : sent ≤ buf.len := by
            have := hmono _ _ hsend
            omega
          by_cases hlt : sent < buf.len
          · simp [TcpConnTask.try_send, hcs, hrem, hq, hsend, hlt] at hok
            subst hok
            refine ⟨?_, ?_, ?_, ?_, ?_⟩
            · intro hsome; simp at hsome
            · intro b st hbs _; simp at hbs
            · intro b r _ hrq _
              cases hrq
              exact ⟨sent, hsend, rfl, rfl, fun _ => ⟨rfl, rfl⟩, fun he => absurd he (by omega)⟩
            · intro b hb; simp at hb
            · intro b st hbs
              simp only [Option.some.injEq, Prod.mk.injEq] at hbs
              obtain ⟨hb1, hb2⟩ := hbs
              subst hb1; subst hb2
              exact hlt
          · simp [TcpConnTask.try_send, hcs, hrem, hq, hsend, hlt] at hok
            subst hok
            have heq : sent = buf.len := by omega
            refine ⟨?_, ?_, ?_, ?_, ?_⟩
            · intro hsome; simp at hsome
            · intro b st hbs _; simp at hbs
            · intro b r _ hrq _
              cases hrq
              exact ⟨sent, hsend, rfl, rfl, fun hl => absurd hl hlt, fun _ => ⟨rfl, rfl⟩⟩
            · intro b hb
              simp only [List.mem_singleton] at hb
              subst hb
              exact ⟨0, sent, rfl, by omega⟩
            · intro b st hbs; simp at hbs
      | nil =>
        by_cases hcl : t.rxClosed = true
        · simp [TcpConnTask.try_send, hcs, hrem, hq, hcl] at hok
        · have hcl2 : t.rxClosed = false := by simpa using hcl
          simp [TcpConnTask.try_send, hcs, hrem, hq, hcl2] at hok
          subst hok
          refine ⟨fun _ => hq, ?_, ?_, ?_, ?_⟩
          · intro b st hbs _; simp at hbs
          · intro b r _ hrq _; simp at hrq
          · intro b hb; simp at hb
          · intro b st hbs; exact hwf b st hbs
  · have hcs2 : s.canSend = false := by simpa using hcs
    simp [TcpConnTask.try_send, hcs2] at hok
    subst hok
    refine ⟨fun _ => rfl, ?_, ?_, ?_, ?_⟩
    · intro b st _ hcs3; rw [hcs2] at hcs3; cases hcs3
    · intro b r _ _ hcs3; rw [hcs2] at hcs3; cases hcs3
    · intro b hb; simp at hb
    · intro b st hbs; exact hwf b st hbs

theorem claim_C5_witness :
    ∃ out, TcpConnTask.try_send
        { remain_to_send := some (⟨7, 10⟩, 4), rxq := [⟨8, 5⟩], rxClosed := false }
        { canSend := true, state := TcpSockState.Established,
          sendAccept := fun n => some (min n 2) } = Except.ok out ∧
      out.task.rxq = [⟨8, 5⟩] ∧ out.task.remain_to_send = some (⟨7, 10⟩, 6) := by
  have h := claim_C5
    { remain_to_send := some (⟨7, 10⟩, 4), rxq := [⟨8, 5⟩], rxClosed := false }
    { canSend := true, state := TcpSockState.Established,
      sendAccept := fun n => some (min n 2) }
    { task := { remain_to_send := some (⟨7, 10⟩, 6), rxq := [⟨8, 5⟩], rxClosed := false },
      socketClosed := false, released := [], sentFrom := some (⟨7, 10⟩, 4, 2),
      hasActivity := true }
    (by intro n m hm; simp only [Option.some.injEq] at hm; omega)
    (by intro b st hbs; simp only [Option.some.injEq, Prod.mk.injEq] at hbs;
        obtain ⟨h1, h2⟩ := hbs; subst h1; subst h2; decide)
    (by rfl)
  exact ⟨_, rfl, (h.1 (by rfl)).symm ▸ rfl, rfl⟩

/-- C6: a received datagram whose source endpoint differs from the registered
dest is discarded without delivery and without updating last_active; only
datagrams whose source equals dest are forwarded and refresh last_active. -/
theorem claim_C6 (t : UdpConnTask) (s : SmolUdpSocketM) (cap : Nat)
    (fresh : PktBuf) (now : Nat) :
    (∀ size ep, s.recvResult = some (size, ep) → ep ≠ t.dest →
      (t.try_recv s cap fresh now).delivered = none ∧
      (t.try_recv s cap fresh now).task = t) ∧
    (∀ size, s.canRecv = true → 0 < cap → s.recvResult = some (size, t.dest) →
      (t.try_recv s cap fresh now).delivered = some { fresh with len := size } ∧
      (t.try_recv s cap fresh now).task.last_active = now ∧
      (t.try_recv s cap fresh now).result = true) ∧
    ((t.try_recv s cap fresh now).delivered.isSome →
      ∃ size, s.recvResult = some (size, t.dest)) := by
  refine ⟨?_, ?_, ?_⟩
  · intro size ep hr hne
    by_cases hg : s.canRecv = true ∧ 0 < cap
    · constructor <;> simp [UdpConnTask.try_recv, hg, hr, hne]
    · constructor <;> simp [UdpConnTask.try_recv, hg]
  · intro size hcr hcap hr
    refine ⟨?_, ?_, ?_⟩ <;> simp [UdpConnTask.try_recv, hcr, hcap, hr]
  · intro hsome
    by_cases hg : s.canRecv = true ∧ 0 < cap
    · cases hr : s.recvResult with
      | none => simp [UdpConnTask.try_recv, hg, hr] at hsome
      | some p =>
        obtain ⟨size, ep⟩ := p
        by_cases hep : ep = t.dest
        · subst hep; exact ⟨size, rfl⟩
        · simp [UdpConnTask.try_recv, hg, hr, hep] at hsome
    · simp [UdpConnTask.try_recv, hg] at hsome

theorem claim_C6_witness :
    (UdpConnTask.try_recv ⟨(5, 53), 100⟩
        { canRecv := true, recvResult := some (9, (6, 53)) } 3 ⟨1, 0⟩ 200).delivered = none ∧
    (UdpConnTask.try_recv ⟨(5, 53), 100⟩
        { canRecv := true, recvResult := some (9, (6, 53)) } 3 ⟨1, 0⟩ 200).task =
      ⟨(5, 53), 100⟩ ∧
    (UdpConnTask.try_recv ⟨(5, 53), 100⟩
        { canRecv := true, recvResult := some (9, (5, 53)) } 3 ⟨1, 0⟩ 200).delivered =
      some ⟨1, 9⟩ := by
  refine ⟨?_, ?_, ?_⟩
  · exact ((claim_C6 ⟨(5, 53), 100⟩
      { canRecv := true, recvResult := some (9, (6, 53)) } 3 ⟨1, 0⟩ 200).1 9 (6, 53)
      rfl (by decide)).1
  · exact ((claim_C6 ⟨(5, 53), 100⟩
      { canRecv := true, recvResult := some (9, (6, 53)) } 3 ⟨1, 0⟩ 200).1 9 (6, 53)
      rfl (by decide)).2
  · exact ((claim_C6 ⟨(5, 53), 100⟩
      { canRecv := true, recvResult := some (9, (5, 53)) } 3 ⟨1, 0⟩ 200).2.1 9
      rfl (by decide) rfl).1

/-! ## HTTP inbound (src/boltconn/src/proxy/http_inbound.rs) -/

/-- Model of str::ends_with over the character list. -/
def strEndsWith (s suf : String) : Bool :=
  List.isPrefixOf suf.data.reverse s.data.reverse

/-- Failures of the request-head read loop. -/
inductive ReadErr where
  | eof
  | tooLong
deriving DecidableEq, Repr

/-- The read_line loop of HttpInbound::serve_connection: accumulate lines
until the text ends with the blank-line terminator; an empty read is EOF and
an accumulation longer than 4096 aborts the connection. -/
def readHead (acc : String) : List String → Except ReadErr String
  | [] =>
    if strEndsWith acc "\r\n\r\n" then Except.ok acc
    else Except.error ReadErr.eof
  | l :: rest =>
    if strEndsWith acc "\r\n\r\n" then Except.ok acc
    else
      if 4096 < (acc ++ l).length then Except.error ReadErr.tooLong
      else readHead (acc ++ l) rest

/-- One parsed header: name plus value (none models bytes that are not
valid UTF-8, which the auth scan treats as a loop break). -/
structure HttpHeader where
  name : String
  value : Option String
deriving DecidableEq, Repr

/-- Modelled from the spec: the httparse::Request view of the request head
(the httparse crate is external to the sources): optional method, version
and path, plus the header list. -/
structure ParsedReq where
  method : Option String
  version : Option Nat
  path : Option String
  headers : List HttpHeader
deriving DecidableEq, Repr

/-- NetworkAddr (spec section 3): raw socket address or domain name. -/
inductive NetworkAddr where
  | Raw (ip : Nat) (port : Nat)
  | DomainName (name : String) (port : Nat)
deriving DecidableEq, Repr

/-- Byte-level ascii test used by the auth scan. -/
def isAsciiStr (s : String) : Bool :=
  s.data.all fun c => c.toNat < 128

/-- The Proxy-Authorization scan of serve_connection: walk the headers with
the running flag r; a matching header name with a non-UTF-8 value breaks the
loop; an ascii value longer than 6 split as case-insensitive "basic " plus a
base64 payload that decodes to the configured user:password sets r. -/
def checkAuthLoop (auth : String) (decodeB64 : String → Option String) :
    List HttpHeader → Bool → Bool
  | [], r => r
  | h :: rest, r =>
    if h.name.toLower = "proxy-authorization" then
      match h.value with
      | none => r
      | some v =>
        let r2 :=
          if isAsciiStr v ∧ 6 < v.length then
            if (v.take 6).toLower = "basic " ∧ decodeB64 (v.drop 6) = some auth
            then true else r
          else r
        checkAuthLoop auth decodeB64 rest r2
    else checkAuthLoop auth decodeB64 rest r

/-- Socket writes and dispatcher submissions performed by serve_connection. -/
inductive HttpEv where
  | wrote403
  | wrote200
  | submitted (dest : NetworkAddr)
deriving DecidableEq, Repr

/-- Errors returned by serve_connection. -/
inductive ServeErr where
  | readErr (e : ReadErr)
  | parseFail
  | invalidConnect
deriving DecidableEq, Repr

/-- HttpInbound::serve_connection: read the head, parse it (parseReq models
httparse, parseAddr models the target parse, decodeB64 models base64 decode
plus UTF-8 check), require CONNECT with HTTP version 1.1 and a parseable
target, check Proxy-Authorization when auth is configured; answer 403 and
close on failure, 200 then submit on success. -/
def serve_connection (lines : List String) (firstByte : Option String)
    (auth : Option String) (parseReq : String → Option ParsedReq)
    (parseAddr : String → Option NetworkAddr) (decodeB64 : String → Option String) :
    List HttpEv × Except ServeErr Unit :=
  match readHead (firstByte.getD "") lines with
  | Except.error e => ([], Except.error (ServeErr.readErr e))
  | Except.ok req =>
    match parseReq req with
    | none => ([], Except.error ServeErr.parseFail)
    | some pr =>
      if pr.method = some "CONNECT" ∧ pr.version = some 1 then
        match pr.path.map parseAddr with
        | some (some dest) =>
          let authorized :=
            match auth with
            | none => true
            | some a => checkAuthLoop a decodeB64 pr.headers false
          if authorized then
            ([HttpEv.wrote200, HttpEv.submitted dest], Except.ok ())
          else
            ([HttpEv.wrote403], Except.error ServeErr.invalidConnect)
        | _ => ([HttpEv.wrote403], Except.error ServeErr.invalidConnect)
      else ([HttpEv.wrote403], Except.error ServeErr.invalidConnect)

theorem readHead_ok (lines : List String) :
    ∀ (acc s : String), readHead acc lines = Except.ok s →
      strEndsWith s "\r\n\r\n" = true ∧ (s = acc ∨ s.length ≤ 4096) := by
  induction lines with
  | nil =>
    intro acc s h
    by_cases he : strEndsWith acc "\r\n\r\n" = true
    · simp [readHead, he] at h
      subst h
      exact ⟨he, Or.inl rfl⟩
    · simp [readHead, he] at h
  | cons l rest ih =>
    intro acc s h
    by_cases he : strEndsWith acc "\r\n\r\n" = true
    · simp [readHead, he] at h
      subst h
      exact ⟨he, Or.inl rfl⟩
    · by_cases hl : 4096 < acc.length + l.length
      · rw [readHead] at h
        simp [he, String.length_append, hl] at h
      · rw [readHead] at h
        simp only [he, Bool.false_eq_true, if_false, String.length_append,
          if_neg (by omega : ¬ 4096 < acc.length + l.length)] at h
        have h2 := ih (acc ++ l) s h
        refine ⟨h2.1, Or.inr ?_⟩
        rcases h2.2 with h3 | h3
        · subst h3
          rw [String.length_append]
          omega
        · exact h3

/-- C8: the request head is read only up to the terminating blank line and
the connection aborted once the accumulated text exceeds 4 KiB; a request
that is not CONNECT with HTTP/1.1 (or with an unparseable target), or whose
Proxy-Authorization check fails when auth is configured, gets 403 Forbidden
and the connection closed; an authorized CONNECT with a parseable target
gets 200 OK before the socket is submitted to the dispatcher. -/
theorem claim_C8 :
    (∀ (acc s : String) (lines : List String), readHead acc lines = Except.ok s →
      strEndsWith s "\r\n\r\n" = true ∧ (s = acc ∨ s.length ≤ 4096)) ∧
    (∀ (acc l : String) (rest : List String), strEndsWith acc "\r\n\r\n" = false →
      4096 < (acc ++ l).length →
      readHead acc (l :: rest) = Except.error ReadErr.tooLong) ∧
    (∀ (lines : List String) (firstByte auth : Option String)
       (parseReq : String → Option ParsedReq) (parseAddr : String → Option NetworkAddr)
       (decodeB64 : String → Option String) (req : String) (pr : ParsedReq),
      readHead (firstByte.getD "") lines = Except.ok req →
      parseReq req = some pr →
      (¬(pr.method = some "CONNECT" ∧ pr.version = some 1) →
        serve_connection lines firstByte auth parseReq parseAddr decodeB64 =
          ([HttpEv.wrote403], Except.error ServeErr.invalidConnect)) ∧
      (∀ p dest, pr.method = some "CONNECT" → pr.version = some 1 →
        pr.path = some p → parseAddr p = some dest →
        (∀ a, auth = some a → checkAuthLoop a decodeB64 pr.headers false = false →
          serve_connection lines firstByte auth parseReq parseAddr decodeB64 =
            ([HttpEv.wrote403], Except.error ServeErr.invalidConnect)) ∧
        ((auth = none ∨
            ∃ a, auth = some a ∧ checkAuthLoop a decodeB64 pr.headers false = true) →
          serve_connection lines firstByte auth parseReq parseAddr decodeB64 =
            ([HttpEv.wrote200, HttpEv.submitted dest], Except.ok ())))) := by
  refine ⟨?_, ?_, ?_⟩
  · intro acc s lines h
    exact readHead_ok lines acc s h
  · intro acc l rest he hl
    rw [String.length_append] at hl
    rw [readHead]
    simp [he, String.length_append, hl]
  · intro lines firstByte auth parseReq parseAddr decodeB64 req pr hread hparse
    constructor
    · intro hnot
      simp [serve_connection, hread, hparse, hnot]
    · intro p dest hm hv hp haddr
      constructor
      · intro a hauth hfail
        simp [serve_connection, hread, hparse, hm, hv, hp, haddr, hauth, hfail]
      · intro hok
        rcases hok with hnone | ⟨a, hsome, htrue⟩
        · simp [serve_connection, hread, hparse, hm, hv, hp, haddr, hnone]
        · simp [serve_connection, hread, hparse, hm, hv, hp, haddr, hsome, htrue]

theorem claim_C8_witness :
    serve_connection ["CONNECT example.com:443 HTTP/1.1\r\n", "\r\n"] none none
      (fun s => if s = "CONNECT example.com:443 HTTP/1.1\r\n\r\n" then
          some { method := some "CONNECT", version := some 1,
                 path := some "example.com:443", headers := [] }
        else none)
      (fun s => if s = "example.com:443" then
          some (NetworkAddr.DomainName "example.com" 443) else none)
      (fun _ => none) =
    ([HttpEv.wrote200, HttpEv.submitted (NetworkAddr.DomainName "example.com" 443)],
      Except.ok ()) := by
  have h := (claim_C8.2.2 ["CONNECT example.com:443 HTTP/1.1\r\n", "\r\n"] none none
      (fun s => if s = "CONNECT example.com:443 HTTP/1.1\r\n\r\n" then
          some { method := some "CONNECT", version := some 1,
                 path := some "example.com:443", headers := [] }
        else none)
      (fun s => if s = "example.com:443" then
          some (NetworkAddr.DomainName "example.com" 443) else none)
      (fun _ => none) "CONNECT example.com:443 HTTP/1.1\r\n\r\n"
      { method := some "CONNECT", version := some 1,
        path := some "example.com:443", headers := [] }
      (by rfl)
      (by rfl)).2 "example.com:443" (NetworkAddr.DomainName "example.com" 443)
      rfl rfl rfl (by rfl)
  exact h.2 (Or.inl rfl)

/-! ## Dispatching engine (src/boltconn/src/dispatch/dispatching.rs) -/

/-- NetworkType from platform::process. -/
inductive NetworkType where
  | Tcp
  | Udp
deriving DecidableEq, Repr

/-- InboundInfo from dispatching.rs. -/
inductive InboundInfo where
  | Tun
  | HttpAny
  | Socks5Any
  | Http (n : Option String)
  | Socks5 (n : Option String)
deriving DecidableEq, Repr

/-- Process identity attached to a connection. -/
structure ProcessInfo where
  name : String
deriving DecidableEq, Repr

/-- ConnInfo from dispatching.rs (socket addresses as number pairs). -/
structure ConnInfo where
  src : Nat × Nat
  dst : NetworkAddr
  inbound : InboundInfo
  resolved_dst : Option (Nat × Nat)
  connection_type : NetworkType
  process_info : Option ProcessInfo
deriving DecidableEq, Repr

mutual
/-- ProxyImpl (dispatch/proxy.rs is not among the sources; the variant set is
the one the spec lists, with the udp capability flags that dispatching.rs
stores in the Socks5/Shadowsocks/Trojan configs). -/
inductive ProxyImpl where
  | Direct
  | Reject
  | Http
  | Socks5 (udp : Bool)
  | Shadowsocks (udp : Bool)
  | Trojan (udp : Bool)
  | Wireguard
  | Chain (contents : List GeneralProxy)

/-- A named proxy. -/
inductive Proxy where
  | mk (name : String) (pimpl : ProxyImpl)

/-- GeneralProxy: a single proxy or a selection group. -/
inductive GeneralProxy where
  | Single (p : Proxy)
  | Group (g : ProxyGroup)

/-- ProxyGroup: name, members, current selection, interface override. -/
inductive ProxyGroup where
  | mk (name : String) (members : List GeneralProxy) (selection : GeneralProxy)
       (iface : Option String)
end

/-- The underlying implementation of a proxy. -/
def Proxy.getImpl : Proxy → ProxyImpl
  | Proxy.mk _ p => p

mutual
/-- Modelled from the spec: GeneralProxy::get_impl (dispatch/proxy.rs is not
among the sources). A single proxy yields its impl and no interface
override; a group resolves its current selection recursively and supplies
its interface override when the inner resolution has none. -/
def GeneralProxy.get_impl : GeneralProxy → ProxyImpl × Option String
  | GeneralProxy.Single p => (p.getImpl, none)
  | GeneralProxy.Group g => ProxyGroup.get_impl g

/-- Modelled from the spec: group resolution (see GeneralProxy.get_impl). -/
def ProxyGroup.get_impl : ProxyGroup → ProxyImpl × Option String
  | ProxyGroup.mk _ _ sel iface =>
    let r := GeneralProxy.get_impl sel
    (r.1, match r.2 with
          | some i => some i
          | none => iface)
end

/-- Modelled from the spec: ProxyImpl::support_udp (dispatch/proxy.rs is not
among the sources). The spec fixes Http to no UDP support; Socks5,
Shadowsocks and Trojan carry the udp flag of their configs (dispatching.rs);
the remaining variants get defaults no theorem below depends on. -/
def ProxyImpl.support_udp : ProxyImpl → Bool
  | ProxyImpl.Direct => true
  | ProxyImpl.Reject => true
  | ProxyImpl.Http => false
  | ProxyImpl.Socks5 udp => udp
  | ProxyImpl.Shadowsocks udp => udp
  | ProxyImpl.Trojan udp => udp
  | ProxyImpl.Wireguard => true
  | ProxyImpl.Chain _ => false

/-- DispatchingSnippet::proxy_filtering: resolve the decision to
(impl, iface); a UDP flow on an impl without UDP support is rewritten to
(Reject, None); anything else is returned unchanged. -/
def proxy_filtering (proxy : GeneralProxy) (info : ConnInfo) : ProxyImpl × Option String :=
  let r := proxy.get_impl
  if r.1.support_udp = false ∧ info.connection_type = NetworkType.Udp then
    (ProxyImpl.Reject, none)
  else r

/-- C4: for a UDP flow whose matched proxy resolves to an impl without UDP
support, proxy_filtering returns the Reject impl with no interface override;
for TCP flows, or UDP flows on a UDP-capable impl, the matched impl and its
interface override are returned unchanged. -/
theorem claim_C4 (proxy : GeneralProxy) (info : ConnInfo) :
    (info.connection_type = NetworkType.Udp →
      (proxy.get_impl).1.support_udp = false →
      proxy_filtering proxy info = (ProxyImpl.Reject, none)) ∧
    (info.connection_type = NetworkType.Tcp ∨ (proxy.get_impl).1.support_udp = true →
      proxy_filtering proxy info = proxy.get_impl) := by
  constructor
  · intro hudp hsup
    simp [proxy_filtering, hsup, hudp]
  · intro h
    rcases h with htcp | hsup
    · have : ¬ info.connection_type = NetworkType.Udp := by
        rw [htcp]; intro hc; cases hc
      simp [proxy_filtering, this]
    · simp [proxy_filtering, hsup]

theorem claim_C4_witness :
    proxy_filtering (GeneralProxy.Single (Proxy.mk "h" ProxyImpl.Http))
      { src := (1, 2), dst := NetworkAddr.Raw 3 4, inbound := InboundInfo.Tun,
        resolved_dst := none, connection_type := NetworkType.Udp, process_info := none } =
      (ProxyImpl.Reject, none) ∧
    proxy_filtering (GeneralProxy.Single (Proxy.mk "h" ProxyImpl.Http))
      { src := (1, 2), dst := NetworkAddr.Raw 3 4, inbound := InboundInfo.Tun,
        resolved_dst := none, connection_type := NetworkType.Tcp, process_info := none } =
      (ProxyImpl.Http, none) := by
  constructor
  · exact (claim_C4 (GeneralProxy.Single (Proxy.mk "h" ProxyImpl.Http))
      { src := (1, 2), dst := NetworkAddr.Raw 3 4, inbound := InboundInfo.Tun,
        resolved_dst := none, connection_type := NetworkType.Udp,
        process_info := none }).1 rfl rfl
  · exact (claim_C4 (GeneralProxy.Single (Proxy.mk "h" ProxyImpl.Http))
      { src := (1, 2), dst := NetworkAddr.Raw 3 4, inbound := InboundInfo.Tun,
        resolved_dst := none, connection_type := NetworkType.Tcp,
        process_info := none }).2 (Or.inl rfl)

mutual
/-- A compiled rule line: a matching rule, the LocalResolve action, or a
SubDispatch action with its compiled sub-snippet.  Rule predicates are
opaque to the spec, so the match functions are data. -/
inductive RuleOrAction where
  | Rule (matchFn : ConnInfo → Option GeneralProxy) (ruleStr : String)
  | LocalResolve (resolveFn : ConnInfo → ConnInfo)
  | SubDispatch (pred : ConnInfo → Bool) (sub : DispatchingSnippet)

/-- DispatchingSnippet: ordered rules plus the mandatory fallback. -/
inductive DispatchingSnippet where
  | mk (rules : List RuleOrAction) (fallback : GeneralProxy)
end

/-- The rule list of a snippet. -/
def DispatchingSnippet.rules : DispatchingSnippet → List RuleOrAction
  | DispatchingSnippet.mk r _ => r

/-- The fallback of a snippet. -/
def DispatchingSnippet.fallback : DispatchingSnippet → GeneralProxy
  | DispatchingSnippet.mk _ f => f

mutual
/-- DispatchingSnippet::matches: try the rules linearly (threading the
ConnInfo, which LocalResolve may rewrite), fall back to proxy_filtering on
the fallback. -/
def DispatchingSnippet.matches : DispatchingSnippet → ConnInfo →
    (ProxyImpl × Option String) × ConnInfo
  | DispatchingSnippet.mk rules fb, info => matchesRules rules fb info

/-- The rule loop of DispatchingSnippet::matches.  A Rule that matches is
post-processed by proxy_filtering; LocalResolve rewrites the info;
SubDispatch (modelled from the spec, dispatch/action.rs is not among the
sources) evaluates its sub-snippet when its predicate holds and its decision
wins. -/
def matchesRules : List RuleOrAction → GeneralProxy → ConnInfo →
    (ProxyImpl × Option String) × ConnInfo
  | [], fb, info => (proxy_filtering fb info, info)
  | RuleOrAction.Rule f _ :: rest, fb, info =>
    match f info with
    | some proxy => (proxy_filtering proxy info, info)
    | none => matchesRules rest fb info
  | RuleOrAction.LocalResolve r :: rest, fb, info => matchesRules rest fb (r info)
  | RuleOrAction.SubDispatch pred sub :: rest, fb, info =>
    if pred info then DispatchingSnippet.matches sub info
    else matchesRules rest fb info
end

/-- Modelled from the spec: TemporaryList (dispatch/temporary.rs is not among
the sources) is a rule list without fallback; its matches runs the same rule
loop and yields no decision when nothing matched, returning the (possibly
LocalResolve-rewritten) info either way. -/
def tempListMatches : List RuleOrAction → ConnInfo →
    Option (ProxyImpl × Option String) × ConnInfo
  | [], info => (none, info)
  | RuleOrAction.Rule f _ :: rest, info =>
    match f info with
    | some proxy => (some (proxy_filtering proxy info), info)
    | none => tempListMatches rest info
  | RuleOrAction.LocalResolve r :: rest, info => tempListMatches rest (r info)
  | RuleOrAction.SubDispatch pred sub :: rest, info =>
    if pred info then
      let r := DispatchingSnippet.matches sub info
      (some r.1, r.2)
    else tempListMatches rest info

/-- Modelled from the spec: the rule-line parsers of RuleBuilder
(dispatch/rule.rs is not among the sources; the rule grammar is opaque to
the spec).  parse_fallback recognises a fallback line, parse_literal a plain
rule line, parse_incomplete a sub-dispatch predicate; resolveFn is the local
resolver action. -/
structure RuleOps where
  parse_fallback : String → Option GeneralProxy
  parse_literal : String → Option (ConnInfo → Option GeneralProxy)
  parse_incomplete : String → Option (ConnInfo → Bool)
  resolveFn : ConnInfo → ConnInfo

mutual
/-- RuleAction from the config layer: LocalResolve or a sub-dispatch with
its raw sub-rules. -/
inductive RuleAction where
  | LocalResolve
  | SubDispatch (matchStr : String) (subrules : List RuleConfigLine)

/-- One raw rule-config line. -/
inductive RuleConfigLine where
  | Simple (s : String)
  | Complex (a : RuleAction)
end

mutual
/-- The loop of DispatchingBuilder::build_rules_loosely: walk the lines with
the accumulated emitted rules (in reverse); only a Simple line in last
position is tried as a fallback, and on success the loop returns what was
emitted so far together with the fallback; otherwise lines append literals,
LocalResolve actions, or recursively built sub-dispatches. -/
def buildLoop (ops : RuleOps) (acc : List RuleOrAction) :
    List RuleConfigLine → Except String (List RuleOrAction × Option GeneralProxy)
  | [] => Except.ok (acc.reverse, none)
  | RuleConfigLine.Simple r :: rest =>
    match rest with
    | [] =>
      match ops.parse_fallback r with
      | some fb => Except.ok (acc.reverse, some fb)
      | none =>
        match ops.parse_literal r with
        | some f => Except.ok ((RuleOrAction.Rule f r :: acc).reverse, none)
        | none => Except.error r
    | rh :: rt =>
      match ops.parse_literal r with
      | some f => buildLoop ops (RuleOrAction.Rule f r :: acc) (rh :: rt)
      | none => Except.error r
  | RuleConfigLine.Complex RuleAction.LocalResolve :: rest =>
    buildLoop ops (RuleOrAction.LocalResolve ops.resolveFn :: acc) rest
  | RuleConfigLine.Complex (RuleAction.SubDispatch m subrules) :: rest =>
    match ops.parse_incomplete m with
    | none => Except.error m
    | some pred =>
      match build_rules ops subrules with
      | Except.error e => Except.error e
      | Except.ok (srules, sfb) =>
        buildLoop ops
          (RuleOrAction.SubDispatch pred (DispatchingSnippet.mk srules sfb) :: acc) rest
termination_by lines => (sizeOf lines, 0)

/-- DispatchingBuilder::build_rules: loose build plus the mandatory-fallback
check. -/
def build_rules (ops : RuleOps) (rules : List RuleConfigLine) :
    Except String (List RuleOrAction × GeneralProxy)
  :=
  match buildLoop ops [] rules with
  | Except.error e => Except.error e
  | Except.ok (l, some fb) => Except.ok (l, fb)
  | Except.ok (_, none) => Except.error "Bad rules: missing fallback"
termination_by (sizeOf rules, 1)
end

/-- DispatchingBuilder::build_rules_loosely. -/
def build_rules_loosely (ops : RuleOps) (rules : List RuleConfigLine) :
    Except String (List RuleOrAction × Option GeneralProxy) :=
  buildLoop ops [] rules

/-- DispatchingBuilder::build_temporary_list: loose build, then reject any
fallback. -/
def build_temporary_list (ops : RuleOps) (list : List RuleConfigLine) :
    Except String (List RuleOrAction) :=
  match build_rules_loosely ops list with
  | Except.error e => Except.error e
  | Except.ok (l, none) => Except.ok l
  | Except.ok (_, some _) => Except.error "Unexpected Fallback"

/-- The Dispatching fields the matching path reads: the swappable temporary
overlay, the builder snapshot used to rebuild it, and the main snippet. -/
structure Dispatching where
  temporary_list : List RuleOrAction
  templist_builder : RuleOps
  snippet : DispatchingSnippet

/-- Dispatching::matches: consult the temporary overlay first; its decision
wins, otherwise evaluate the main snippet. -/
def Dispatching.matches (d : Dispatching) (info : ConnInfo) :
    (ProxyImpl × Option String) × ConnInfo :=
  match tempListMatches d.temporary_list info with
  | (some r, info2) => (r, info2)
  | (none, info2) => d.snippet.matches info2

/-- Dispatching::update_temporary_list: rebuild the overlay from raw lines;
on success store it (flag true), on error leave the dispatching unchanged
(flag false). -/
def Dispatching.update_temporary_list (d : Dispatching) (list : List RuleConfigLine) :
    Dispatching × Bool :=
  match build_temporary_list d.templist_builder list with
  | Except.ok l => ({ d with temporary_list := l }, true)
  | Except.error _ => (d, false)

/-- No rule of the list matches the (threaded) info: rules yield none,
sub-dispatch predicates fail, LocalResolve rewrites are applied in order. -/
def noneMatches : List RuleOrAction → ConnInfo → Bool
  | [], _ => true
  | RuleOrAction.Rule f _ :: rest, info => (f info).isNone && noneMatches rest info
  | RuleOrAction.LocalResolve r :: rest, info => noneMatches rest (r info)
  | RuleOrAction.SubDispatch pred _ :: rest, info => !pred info && noneMatches rest info

/-- The info after applying every LocalResolve rewrite of the list in order. -/
def applyResolves : List RuleOrAction → ConnInfo → ConnInfo
  | [], info => info
  | RuleOrAction.LocalResolve r :: rest, info => applyResolves rest (r info)
  | RuleOrAction.Rule _ _ :: rest, info => applyResolves rest info
  | RuleOrAction.SubDispatch _ _ :: rest, info => applyResolves rest info

/-- The raw rule list ends with a line that parses as a fallback. -/
def endsWithFallback (ops : RuleOps) (lines : List RuleConfigLine) : Prop :=
  match lines.getLast? with
  | some (RuleConfigLine.Simple r) => (ops.parse_fallback r).isSome = true
  | _ => False

theorem matchesRules_of_noneMatches (rules : List RuleOrAction) :
    ∀ (fb : GeneralProxy) (info : ConnInfo), noneMatches rules info = true →
      matchesRules rules fb info =
        (proxy_filtering fb (applyResolves rules info), applyResolves rules info) := by
  induction rules with
  | nil =>
    intro fb info _
    simp [matchesRules, applyResolves]
  | cons hd rest ih =>
    intro fb info hnm
    cases hd with
    | Rule f s =>
      simp only [noneMatches, Bool.and_eq_true, Option.isNone_iff_eq_none] at hnm
      obtain ⟨h1, h2⟩ := hnm
      simp only [matchesRules, h1, applyResolves]
      exact ih fb info h2
    | LocalResolve r =>
      simp only [noneMatches] at hnm
      simp only [matchesRules, applyResolves]
      exact ih fb (r info) hnm
    | SubDispatch pred sub =>
      simp only [noneMatches, Bool.and_eq_true, Bool.not_eq_eq_eq_not, Bool.not_true] at hnm
      obtain ⟨h1, h2⟩ := hnm
      simp only [matchesRules, h1, applyResolves, Bool.false_eq_true, if_false]
      exact ih fb info h2

theorem buildLoop_ok_some_ends (lines : List RuleConfigLine) :
    ∀ (ops : RuleOps) (acc l : List RuleOrAction) (fb : GeneralProxy),
      buildLoop ops acc lines = Except.ok (l, some fb) → endsWithFallback ops lines := by
  induction lines with
  | nil =>
    intro ops acc l fb h
    simp [buildLoop] at h
  | cons hd rest ih =>
    intro ops acc l fb h
    cases hd with
    | Simple r =>
      cases rest with
      | nil =>
        cases hf : ops.parse_fallback r with
        | some fb2 =>
          simp [endsWithFallback, hf]
        | none =>
          cases hl : ops.parse_literal r with
          | some f => simp [buildLoop, hf, hl] at h
          | none => simp [buildLoop, hf, hl] at h
      | cons rh rt =>
        cases hl : ops.parse_literal r with
        | some f =>
          simp only [buildLoop, hl] at h
          have hrec := ih ops _ l fb h
          simpa [endsWithFallback, List.getLast?_cons_cons] using hrec
        | none => simp [buildLoop, hl] at h
    | Complex a =>
      cases a with
      | LocalResolve =>
        simp only [buildLoop] at h
        have hrec := ih ops _ l fb h
        have hne : rest ≠ [] := by
          intro hr
          subst hr
          simp [buildLoop] at h
        cases rest with
        | nil => exact absurd rfl hne
        | cons rh rt =>
          simpa [endsWithFallback, List.getLast?_cons_cons] using hrec
      | SubDispatch m subrules =>
        cases hp : ops.parse_incomplete m with
        | none => simp [buildLoop, hp] at h
        | some pred =>
          cases hb : build_rules ops subrules with
          | error e => simp [buildLoop, hp, hb] at h
          | ok pr =>
            obtain ⟨srules, sfb⟩ := pr
            simp only [buildLoop, hp, hb] at h
            have hrec := ih ops _ l fb h
            have hne : rest ≠ [] := by
              intro hr
              subst hr
              simp [buildLoop] at h
            cases rest with
            | nil => exact absurd rfl hne
            | cons rh rt =>
              simpa [endsWithFallback, List.getLast?_cons_cons] using hrec

theorem buildLoop_ends_not_none (lines : List RuleConfigLine) :
    ∀ (ops : RuleOps) (acc l : List RuleOrAction),
      endsWithFallback ops lines → buildLoop ops acc lines ≠ Except.ok (l, none) := by
  induction lines with
  | nil =>
    intro ops acc l hends
    simp [endsWithFallback] at hends
  | cons hd rest ih =>
    intro ops acc l hends h
    cases hd with
    | Simple r =>
      cases rest with
      | nil =>
        simp only [endsWithFallback, List.getLast?_singleton] at hends
        cases hf : ops.parse_fallback r with
        | some fb2 => simp [buildLoop, hf] at h
        | none => rw [hf] at hends; simp at hends
      | cons rh rt =>
        have hends2 : endsWithFallback ops (rh :: rt) := by
          simpa [endsWithFallback, List.getLast?_cons_cons] using hends
        cases hl : ops.parse_literal r with
        | some f =>
          simp only [buildLoop, hl] at h
          exact ih ops _ l hends2 h
        | none => simp [buildLoop, hl] at h
    | Complex a =>
      have hne : rest ≠ [] := by
        intro hr
        subst hr
        simp [endsWithFallback] at hends
      have hends2 : endsWithFallback ops rest := by
        cases rest with
        | nil => exact absurd rfl hne
        | cons rh rt => simpa [endsWithFallback, List.getLast?_cons_cons] using hends
      cases a with
      | LocalResolve =>
        simp only [buildLoop] at h
        exact ih ops _ l hends2 h
      | SubDispatch m subrules =>
        cases hp : ops.parse_incomplete m with
        | none => simp [buildLoop, hp] at h
        | some pred =>
          cases hb : build_rules ops subrules with
          | error e => simp [buildLoop, hp, hb] at h
          | ok pr =>
            obtain ⟨srules, sfb⟩ := pr
            simp only [buildLoop, hp, hb] at h
            exact ih ops _ l hends2 h

/-- C2: build_rules errors whenever the rule list does not end with a line
that parses as a fallback; and for every snippet successfully built from it,
matches is total: when no rule matches, the decision is the filtered
fallback (on the LocalResolve-rewritten info). -/
theorem claim_C2 (ops : RuleOps) (lines : List RuleConfigLine) :
    (¬ endsWithFallback ops lines → ∃ e, build_rules ops lines = Except.error e) ∧
    (∀ rules fb, build_rules ops lines = Except.ok (rules, fb) →
      ∀ info, noneMatches rules info = true →
        DispatchingSnippet.matches (DispatchingSnippet.mk rules fb) info =
          (proxy_filtering fb (applyResolves rules info), applyResolves rules info)) := by
  constructor
  · intro hnot
    rw [build_rules]
    cases hb : buildLoop ops [] lines with
    | error e => exact ⟨e, rfl⟩
    | ok pr =>
      obtain ⟨l, ofb⟩ := pr
      cases ofb with
      | some fb => exact absurd (buildLoop_ok_some_ends lines ops [] l fb hb) hnot
      | none => exact ⟨"Bad rules: missing fallback", rfl⟩
  · intro rules fb _ info hnm
    simp only [DispatchingSnippet.matches]
    exact matchesRules_of_noneMatches rules fb info hnm

/-- A REJECT decision used in concrete instances. -/
def fbReject : GeneralProxy := GeneralProxy.Single (Proxy.mk "REJECT" ProxyImpl.Reject)

/-- A DIRECT decision used in concrete instances. -/
def gpDirect : GeneralProxy := GeneralProxy.Single (Proxy.mk "DIRECT" ProxyImpl.Direct)

/-- A concrete parser bundle: only the line "FALLBACK" parses as a fallback. -/
def sampleOps : RuleOps :=
  { parse_fallback := fun s => if s = "FALLBACK" then some fbReject else none,
    parse_literal := fun _ => none,
    parse_incomplete := fun _ => none,
    resolveFn := fun i => i }

/-- A concrete connection. -/
def sampleInfo : ConnInfo :=
  { src := (1, 2), dst := NetworkAddr.Raw 3 4, inbound := InboundInfo.Tun,
    resolved_dst := none, connection_type := NetworkType.Tcp, process_info := none }

theorem claim_C2_witness :
    (∃ e, build_rules sampleOps [RuleConfigLine.Simple "x"] = Except.error e) ∧
    DispatchingSnippet.matches (DispatchingSnippet.mk [] fbReject) sampleInfo =
      (proxy_filtering fbReject sampleInfo, sampleInfo) := by
  constructor
  · exact (claim_C2 sampleOps [RuleConfigLine.Simple "x"]).1
      (by intro h; simp [endsWithFallback, sampleOps] at h)
  · have h := (claim_C2 sampleOps [RuleConfigLine.Simple "FALLBACK"]).2 [] fbReject
      (by simp [build_rules, buildLoop, sampleOps]) sampleInfo rfl
    simpa [applyResolves] using h

/-- C3: if the temporary overlay produces a decision, Dispatching::matches
returns it and the main snippet is not consulted (the result is independent
of the snippet); the main snippet is evaluated only when the overlay yields
no decision. -/
theorem claim_C3 (d : Dispatching) (info : ConnInfo) :
    (∀ r info2, tempListMatches d.temporary_list info = (some r, info2) →
      d.matches info = (r, info2) ∧
      ∀ s : DispatchingSnippet,
        Dispatching.matches { d with snippet := s } info = (r, info2)) ∧
    (∀ info2, tempListMatches d.temporary_list info = (none, info2) →
      d.matches info = d.snippet.matches info2) := by
  constructor
  · intro r info2 h
    constructor
    · simp [Dispatching.matches, h]
    · intro s
      simp [Dispatching.matches, h]
  · intro info2 h
    simp [Dispatching.matches, h]

theorem claim_C3_witness :
    Dispatching.matches
      { temporary_list := [RuleOrAction.Rule (fun _ => some gpDirect) "always"],
        templist_builder := sampleOps,
        snippet := DispatchingSnippet.mk [] fbReject } sampleInfo =
      (proxy_filtering gpDirect sampleInfo, sampleInfo) :=
  ((claim_C3
      { temporary_list := [RuleOrAction.Rule (fun _ => some gpDirect) "always"],
        templist_builder := sampleOps,
        snippet := DispatchingSnippet.mk [] fbReject } sampleInfo).1
    (proxy_filtering gpDirect sampleInfo) sampleInfo rfl).1

/-- C9: a temporary-overlay rule list ending in a line that parses as a
fallback fails to build and leaves the installed overlay unchanged; an
overlay is installed only when the loose build produced no fallback. -/
theorem claim_C9 (d : Dispatching) (list : List RuleConfigLine) :
    (endsWithFallback d.templist_builder list →
      d.update_temporary_list list = (d, false)) ∧
    (∀ d2, d.update_temporary_list list = (d2, true) →
      ∃ rules, build_rules_loosely d.templist_builder list = Except.ok (rules, none) ∧
        d2 = { d with temporary_list := rules }) := by
  constructor
  · intro hends
    rw [Dispatching.update_temporary_list]
    cases hb : build_temporary_list d.templist_builder list with
    | error e => rfl
    | ok l =>
      exfalso
      rw [build_temporary_list] at hb
      cases hb2 : build_rules_loosely d.templist_builder list with
      | error e => rw [hb2] at hb; cases hb
      | ok pr =>
        obtain ⟨l2, ofb⟩ := pr
        cases ofb with
        | none =>
          rw [build_rules_loosely] at hb2
          exact buildLoop_ends_not_none list d.templist_builder [] l2 hends hb2
        | some fb => rw [hb2] at hb; cases hb
  · intro d2 h
    rw [Dispatching.update_temporary_list] at h
    cases hb : build_temporary_list d.templist_builder list with
    | error e =>
      rw [hb] at h
      simp at h
    | ok l =>
      rw [hb] at h
      have hd : d2 = { d with temporary_list := l } := by
        have := congrArg Prod.fst h
        exact this.symm
      rw [build_temporary_list] at hb
      cases hb2 : build_rules_loosely d.templist_builder list with
      | error e => rw [hb2] at hb; cases hb
      | ok pr =>
        obtain ⟨l2, ofb⟩ := pr
        cases ofb with
        | none =>
          rw [hb2] at hb
          cases hb
          exact ⟨_, rfl, hd⟩
        | some fb => rw [hb2] at hb; cases hb

theorem claim_C9_witness :
    Dispatching.update_temporary_list
      { temporary_list := [], templist_builder := sampleOps,
        snippet := DispatchingSnippet.mk [] fbReject }
      [RuleConfigLine.Simple "FALLBACK"] =
    ({ temporary_list := [], templist_builder := sampleOps,
       snippet := DispatchingSnippet.mk [] fbReject }, false) :=
  (claim_C9
      { temporary_list := [], templist_builder := sampleOps,
        snippet := DispatchingSnippet.mk [] fbReject }
      [RuleConfigLine.Simple "FALLBACK"]).1
    (by simp [endsWithFallback, sampleOps])

/-! ## Proxy-group building with cycle detection
(DispatchingBuilder::parse_group / parse_one_proxy) -/

/-- RawProxyProviderOption from the config layer. -/
inductive ProviderOption where
  | Name (n : String)
  | Filter (n : String) (filter : String)

/-- RawProxyGroupCfg: member proxies, chain list, providers, interface. -/
structure RawProxyGroupCfg where
  proxies : Option (List String)
  chains : Option (List String)
  providers : Option (List ProviderOption)
  interface : Option String

/-- The read-only inputs of group parsing: the persisted group selection,
the provider schema (provider name to proxy entry names), the raw group
list, a regex compiler (the regex crate, abstract) and roughly_validate
(a config-layer method not among the sources, abstract). -/
structure GroupCtx where
  group_selection : List (String × String)
  proxy_schema : List (String × List String)
  glist : List (String × RawProxyGroupCfg)
  regexCompile : String → Option (String → Bool)
  validate : RawProxyGroupCfg → Bool

/-- The mutable builder maps: proxies and groups keyed by name. -/
structure BuilderSt where
  proxies : List (String × Proxy)
  groups : List (String × ProxyGroup)

/-- DispatchingBuilder::empty seeds DIRECT and REJECT. -/
def builderEmptySt : BuilderSt :=
  { proxies := [("DIRECT", Proxy.mk "DIRECT" ProxyImpl.Direct),
                ("REJECT", Proxy.mk "REJECT" ProxyImpl.Reject)],
    groups := [] }

/-- Result of a fueled builder computation: out of fuel, a Rust panic
(failed .unwrap()), an error, or success. -/
inductive BRes (α : Type) where
  | outOfFuel
  | panicked
  | err (e : String)
  | ok (a : α)

/-- Sequencing that propagates non-success results. -/
def BRes.bind {α β : Type} : BRes α → (α → BRes β) → BRes β
  | BRes.outOfFuel, _ => BRes.outOfFuel
  | BRes.panicked, _ => BRes.panicked
  | BRes.err e, _ => BRes.err e
  | BRes.ok a, f => f a

/-- HashSet::insert on the queued-groups set. -/
def qinsert (n : String) (q : List String) : List String :=
  if q.contains n then q else n :: q

/-- HashSet::remove on the queued-groups set. -/
def qremove (n : String) (q : List String) : List String :=
  q.filter fun x => !(x == n)

/-- state.group_selection.get(name).unwrap_or(default empty string). -/
def selGet (ctx : GroupCtx) (name : String) : String :=
  (List.lookup name ctx.group_selection).getD ""

/-- The provider-entry loop of the genuine-group branch: every entry must
already be a known proxy; selection is updated when the entry matches the
persisted choice. -/
def parse_provider_entries (ctx : GroupCtx) (st : BuilderSt) (name : String) :
    List String → List GeneralProxy → Option GeneralProxy →
    BRes (List GeneralProxy × Option GeneralProxy)
  | [], arr, sel => BRes.ok (arr, sel)
  | p :: rest, arr, sel =>
    match List.lookup p st.proxies with
    | some single =>
      let content := GeneralProxy.Single single
      let sel2 := if p = selGet ctx name then some content else sel
      parse_provider_entries ctx st name rest (arr ++ [content]) sel2
    | none => BRes.err ("No [" ++ p ++ "] in group [" ++ name ++ "]")

/-- The providers loop: a plain provider is looked up in the schema; a
filtered provider first compiles its regex, then filters the schema
entries. -/
def parse_providers (ctx : GroupCtx) (st : BuilderSt) (name : String) :
    List ProviderOption → List GeneralProxy → Option GeneralProxy →
    BRes (List GeneralProxy × Option GeneralProxy)
  | [], arr, sel => BRes.ok (arr, sel)
  | ProviderOption.Name n :: rest, arr, sel =>
    match List.lookup n ctx.proxy_schema with
    | none => BRes.err ("Provider " ++ n ++ " not found")
    | some entries =>
      BRes.bind (parse_provider_entries ctx st name entries arr sel) fun pr =>
        parse_providers ctx st name rest pr.1 pr.2
  | ProviderOption.Filter n f :: rest, arr, sel =>
    match ctx.regexCompile f with
    | none => BRes.err ("provider " ++ n ++ " has bad filter: " ++ f)
    | some rx =>
      match List.lookup n ctx.proxy_schema with
      | none => BRes.err ("Provider " ++ n ++ " not found")
      | some entries =>
        BRes.bind (parse_provider_entries ctx st name (entries.filter rx) arr sel) fun pr =>
          parse_providers ctx st name rest pr.1 pr.2

mutual
/-- DispatchingBuilder::parse_group.  The entry guard: a name already among
groups, proxies or the in-progress queued set is a duplicate error when
dup_as_error, else a silent skip.  A chains config resolves its members in
reverse and stores a Chain proxy; a genuine group resolves member proxies
then providers, skips when empty, else stores the group with the persisted
or first selection.  Fuel only limits recursion depth. -/
def parse_group (fuel : Nat) (ctx : GroupCtx) (st : BuilderSt) (q : List String)
    (name : String) (cfg : RawProxyGroupCfg) (dupAsError : Bool) :
    BRes (BuilderSt × List String) :=
  if (List.lookup name st.groups).isSome || (List.lookup name st.proxies).isSome
      || q.contains name then
    if dupAsError then BRes.err ("Duplicate group name " ++ name)
    else BRes.ok (st, q)
  else if ctx.validate cfg = false then BRes.err ("Invalid group " ++ name)
  else
    match cfg.chains with
    | some chains =>
      BRes.bind (parse_members fuel ctx st q name chains.reverse [] none) fun r =>
        BRes.ok ({ r.1 with
            proxies := (name, Proxy.mk name (ProxyImpl.Chain r.2.2.1)) :: r.1.proxies },
          r.2.1)
    | none =>
      BRes.bind (parse_members fuel ctx st q name (cfg.proxies.getD []) [] none) fun r =>
        BRes.bind (parse_providers ctx r.1 name (cfg.providers.getD []) r.2.2.1 r.2.2.2)
          fun pr =>
          match pr.1 with
          | [] => BRes.ok (r.1, r.2.1)
          | a :: _ =>
            BRes.ok ({ r.1 with
                groups := (name, ProxyGroup.mk name pr.1 (pr.2.getD a) cfg.interface)
                  :: r.1.groups },
              r.2.1)
termination_by (fuel, 2, 0)

/-- The member loop shared by both branches of parse_group: resolve each
member through parse_one_proxy, collect the contents, track the persisted
selection. -/
def parse_members (fuel : Nat) (ctx : GroupCtx) (st : BuilderSt) (q : List String)
    (name : String) (ps : List String) (arr : List GeneralProxy)
    (sel : Option GeneralProxy) :
    BRes (BuilderSt × List String × List GeneralProxy × Option GeneralProxy) :=
  match ps with
  | [] => BRes.ok (st, q, arr, sel)
  | p :: rest =>
    BRes.bind (parse_one_proxy fuel ctx st q p name) fun r =>
      let sel2 := if p = selGet ctx name then some r.1 else sel
      parse_members fuel ctx r.2.1 r.2.2 name rest (arr ++ [r.1]) sel2
termination_by (fuel, 1, ps.length)

/-- DispatchingBuilder::parse_one_proxy: a known proxy or group resolves
directly; otherwise the parent name enters the queued set, the referenced
group is parsed recursively with dup_as_error, the parent name is removed,
and the freshly inserted group or chain proxy is looked up (a miss is the
source's .unwrap() panic). -/
def parse_one_proxy (fuel : Nat) (ctx : GroupCtx) (st : BuilderSt) (q : List String)
    (p : String) (name : String) :
    BRes (GeneralProxy × BuilderSt × List String) :=
  match List.lookup p st.proxies with
  | some single => BRes.ok (GeneralProxy.Single single, st, q)
  | none =>
    match List.lookup p st.groups with
    | some g => BRes.ok (GeneralProxy.Group g, st, q)
    | none =>
      let q1 := qinsert name q
      match List.lookup p ctx.glist with
      | none => BRes.err ("No [" ++ p ++ "] in group [" ++ name ++ "]")
      | some sub =>
        match fuel with
        | 0 => BRes.outOfFuel
        | fuel2 + 1 =>
          BRes.bind (parse_group fuel2 ctx st q1 p sub true) fun r =>
            let q3 := qremove name r.2
            match List.lookup p r.1.groups with
            | some g => BRes.ok (GeneralProxy.Group g, r.1, q3)
            | none =>
              match List.lookup p r.1.proxies with
              | some single => BRes.ok (GeneralProxy.Single single, r.1, q3)
              | none => BRes.panicked
termination_by (fuel, 0, 0)
end

/-- The group loop of DispatchingBuilder::new: parse every configured group
in order, with one queued set threaded through. -/
def parse_all_groups (fuel : Nat) (ctx : GroupCtx) (st : BuilderSt) (q : List String) :
    List (String × RawProxyGroupCfg) → BRes (BuilderSt × List String)
  | [] => BRes.ok (st, q)
  | (name, cfg) :: rest =>
    BRes.bind (parse_group fuel ctx st q name cfg false) fun r =>
      parse_all_groups fuel ctx r.1 r.2 rest

@[simp] theorem BRes.bind_ok {α β : Type} (a : α) (f : α → BRes β) :
    BRes.bind (BRes.ok a) f = f a := rfl

@[simp] theorem BRes.bind_err {α β : Type} (e : String) (f : α → BRes β) :
    BRes.bind (BRes.err e) f = BRes.err e := rfl

@[simp] theorem BRes.bind_outOfFuel {α β : Type} (f : α → BRes β) :
    BRes.bind BRes.outOfFuel f = BRes.outOfFuel := rfl

@[simp] theorem BRes.bind_panicked {α β : Type} (f : α → BRes β) :
    BRes.bind BRes.panicked f = BRes.panicked := rfl

theorem bind_ok_elim {α β : Type} (x : BRes α) (f : α → BRes β) (b : β)
    (h : BRes.bind x f = BRes.ok b) : ∃ a, x = BRes.ok a ∧ f a = BRes.ok b := by
  cases x with
  | outOfFuel => cases h
  | panicked => cases h
  | err e => cases h
  | ok a => exact ⟨a, rfl, h⟩

theorem lookup_cons_ne {β : Type} (k a : String) (v : β) (l : List (String × β))
    (h : k ≠ a) : List.lookup k ((a, v) :: l) = List.lookup k l := by
  simp [List.lookup, beq_eq_false_iff_ne.mpr h]

theorem lookup_mem {β : Type} (k : String) (v : β) (l : List (String × β))
    (h : List.lookup k l = some v) : (k, v) ∈ l := by
  induction l with
  | nil => cases h
  | cons p rest ih =>
    obtain ⟨a, w⟩ := p
    rw [List.lookup] at h
    by_cases hk : k = a
    · subst hk
      simp at h
      subst h
      exact List.mem_cons_self _ _
    · rw [beq_eq_false_iff_ne.mpr hk] at h
      simp at h
      exact List.mem_cons_of_mem _ (ih h)

theorem mem_lookup_nodup {β : Type} (k : String) (v : β) (l : List (String × β))
    (hnd : (l.map Prod.fst).Nodup) (h : (k, v) ∈ l) : List.lookup k l = some v := by
  induction l with
  | nil => cases h
  | cons p rest ih =>
    obtain ⟨a, w⟩ := p
    rw [List.map_cons, List.nodup_cons] at hnd
    rcases List.mem_cons.mp h with h1 | h1
    · cases h1
      simp [List.lookup]
    · have hk : k ≠ a := by
        intro hk
        subst hk
        exact hnd.1 (List.mem_map.mpr ⟨(k, v), h1, rfl⟩)
      rw [lookup_cons_ne _ _ _ _ hk]
      exact ih hnd.2 h1

theorem contains_false_notMem (q : List String) (n : String)
    (h : q.contains n = false) : n ∉ q := by
  intro hmem
  have : q.contains n = true := by
    simpa using hmem
  rw [h] at this
  cases this

theorem notMem_contains_false (q : List String) (n : String)
    (h : n ∉ q) : q.contains n = false := by
  by_cases hc : q.contains n = true
  · exact absurd (by simpa using hc) h
  · simpa using hc

theorem qremove_head (n : String) (q : List String) (h : q.contains n = false) :
    qremove n (n :: q) = q := by
  rw [qremove]
  rw [List.filter_cons]
  simp only [beq_self_eq_true, Bool.not_true, Bool.false_eq_true, if_false]
  apply List.filter_eq_self.mpr
  intro a ha
  have : a ≠ n := by
    intro he
    subst he
    exact contains_false_notMem q a h ha
  simp [this]

theorem qinsert_not_contains (n : String) (q : List String)
    (h : q.contains n = false) : qinsert n q = n :: q := by
  rw [qinsert, h]
  simp

/-- Successful group parsing leaves the queued set exactly as it was. -/
theorem q_preserve (ctx : GroupCtx) : ∀ (fuel : Nat),
    (∀ st q name cfg d st2 q2,
      parse_group fuel ctx st q name cfg d = BRes.ok (st2, q2) → q2 = q) ∧
    (∀ ps st q name arr sel st2 q2 arr2 sel2, q.contains name = false →
      parse_members fuel ctx st q name ps arr sel = BRes.ok (st2, q2, arr2, sel2) →
      q2 = q) ∧
    (∀ st q p name r st2 q2, q.contains name = false →
      parse_one_proxy fuel ctx st q p name = BRes.ok (r, st2, q2) → q2 = q) := by
  intro fuel
  induction fuel with
  | zero =>
    have hp : ∀ st q p name r st2 q2, q.contains name = false →
        parse_one_proxy 0 ctx st q p name = BRes.ok (r, st2, q2) → q2 = q := by
      intro st q p name r st2 q2 hq h
      rw [parse_one_proxy] at h
      cases h1 : List.lookup p st.proxies with
      | some single =>
        rw [h1] at h
        cases h
        rfl
      | none =>
        rw [h1] at h
        cases h2 : List.lookup p st.groups with
        | some g =>
          rw [h2] at h
          cases h
          rfl
        | none =>
          rw [h2] at h
          cases h3 : List.lookup p ctx.glist with
          | none => rw [h3] at h; cases h
          | some sub => rw [h3] at h; cases h
    have hm : ∀ ps st q name arr sel st2 q2 arr2 sel2, q.contains name = false →
        parse_members 0 ctx st q name ps arr sel = BRes.ok (st2, q2, arr2, sel2) →
        q2 = q := by
      intro ps
      induction ps with
      | nil =>
        intro st q name arr sel st2 q2 arr2 sel2 hq h
        rw [parse_members] at h
        cases h
        rfl
      | cons p rest ih =>
        intro st q name arr sel st2 q2 arr2 sel2 hq h
        rw [parse_members] at h
        obtain ⟨r, hr, h2⟩ := bind_ok_elim _ _ _ h
        have hq2 := hp st q p name r.1 r.2.1 r.2.2 hq hr
        have hrec := ih r.2.1 r.2.2 name _ _ st2 q2 arr2 sel2 (by rw [hq2]; exact hq) h2
        rw [hrec, hq2]
    refine ⟨?_, hm, hp⟩
    intro st q name cfg d st2 q2 h
    rw [parse_group] at h
    by_cases hdup : ((List.lookup name st.groups).isSome || (List.lookup name st.proxies).isSome
        || q.contains name) = true
    · rw [if_pos hdup] at h
      cases d with
      | true => cases h
      | false => cases h; rfl
    · rw [if_neg hdup] at h
      have hqc : q.contains name = false := by
        simp only [Bool.or_eq_true] at hdup
        push_neg at hdup
        simpa using hdup.2
      by_cases hv : ctx.validate cfg = false
      · rw [if_pos hv] at h; cases h
      · rw [if_neg hv] at h
        cases hch : cfg.chains with
        | some chains =>
          rw [hch] at h
          obtain ⟨r, hr, h2⟩ := bind_ok_elim _ _ _ h
          cases h2
          exact hm chains.reverse st q name [] none r.1 r.2.1 r.2.2.1 r.2.2.2 hqc hr
        | none =>
          rw [hch] at h
          obtain ⟨r, hr, h2⟩ := bind_ok_elim _ _ _ h
          obtain ⟨pr, hpr, h3⟩ := bind_ok_elim _ _ _ h2
          have hqq := hm (cfg.proxies.getD []) st q name [] none r.1 r.2.1 r.2.2.1
            r.2.2.2 hqc hr
          cases hprm : pr.1 with
          | nil => rw [hprm] at h3; cases h3; exact hqq
          | cons a arest => rw [hprm] at h3; cases h3; exact hqq
  | succ f ih =>
    have hp : ∀ st q p name r st2 q2, q.contains name = false →
        parse_one_proxy (f + 1) ctx st q p name = BRes.ok (r, st2, q2) → q2 = q := by
      intro st q p name r st2 q2 hq h
      rw [parse_one_proxy] at h
      cases h1 : List.lookup p st.proxies with
      | some single =>
        rw [h1] at h
        cases h
        rfl
      | none =>
        rw [h1] at h
        cases h2 : List.lookup p st.groups with
        | some g =>
          rw [h2] at h
          cases h
          rfl
        | none =>
          rw [h2] at h
          cases h3 : List.lookup p ctx.glist with
          | none => rw [h3] at h; cases h
          | some sub =>
            rw [h3] at h
            obtain ⟨rr, hrr, h4⟩ := bind_ok_elim _ _ _ h
            have hqr := ih.1 st (qinsert name q) p sub true rr.1 rr.2 (by
              cases rr
              exact hrr)
            rw [qinsert_not_contains name q hq] at hqr
            have hq3 : qremove name rr.2 = q := by
              rw [hqr, qremove_head name q hq]
            cases h5 : List.lookup p rr.1.groups with
            | some g =>
              rw [h5] at h4
              cases h4
              exact hq3
            | none =>
              rw [h5] at h4
              cases h6 : List.lookup p rr.1.proxies with
              | some single =>
                rw [h6] at h4
                cases h4
                exact hq3
              | none => rw [h6] at h4; cases h4
    have hm : ∀ ps st q name arr sel st2 q2 arr2 sel2, q.contains name = false →
        parse_members (f + 1) ctx st q name ps arr sel = BRes.ok (st2, q2, arr2, sel2) →
        q2 = q := by
      intro ps
      induction ps with
      | nil =>
        intro st q name arr sel st2 q2 arr2 sel2 hq h
        rw [parse_members] at h
        cases h
        rfl
      | cons p rest ihl =>
        intro st q name arr sel st2 q2 arr2 sel2 hq h
        rw [parse_members] at h
        obtain ⟨r, hr, h2⟩ := bind_ok_elim _ _ _ h
        have hq2 := hp st q p name r.1 r.2.1 r.2.2 hq hr
        have hrec := ihl r.2.1 r.2.2 name _ _ st2 q2 arr2 sel2 (by rw [hq2]; exact hq) h2
        rw [hrec, hq2]
    refine ⟨?_, hm, hp⟩
    intro st q name cfg d st2 q2 h
    rw [parse_group] at h
    by_cases hdup : ((List.lookup name st.groups).isSome || (List.lookup name st.proxies).isSome
        || q.contains name) = true
    · rw [if_pos hdup] at h
      cases d with
      | true => cases h
      | false => cases h; rfl
    · rw [if_neg hdup] at h
      have hqc : q.contains name = false := by
        simp only [Bool.or_eq_true] at hdup
        push_neg at hdup
        simpa using hdup.2
      by_cases hv : ctx.validate cfg = false
      · rw [if_pos hv] at h; cases h
      · rw [if_neg hv] at h
        cases hch : cfg.chains with
        | some chains =>
          rw [hch] at h
          obtain ⟨r, hr, h2⟩ := bind_ok_elim _ _ _ h
          cases h2
          exact hm chains.reverse st q name [] none r.1 r.2.1 r.2.2.1 r.2.2.2 hqc hr
        | none =>
          rw [hch] at h
          obtain ⟨r, hr, h2⟩ := bind_ok_elim _ _ _ h
          obtain ⟨pr, hpr, h3⟩ := bind_ok_elim _ _ _ h2
          have hqq := hm (cfg.proxies.getD []) st q name [] none r.1 r.2.1 r.2.2.1
            r.2.2.2 hqc hr
          cases hprm : pr.1 with
          | nil => rw [hprm] at h3; cases h3; exact hqq
          | cons a arest => rw [hprm] at h3; cases h3; exact hqq

/-- A name is resolved: it is in the proxies map or the groups map. -/
def Completed (st : BuilderSt) (n : String) : Prop :=
  (List.lookup n st.proxies).isSome = true ∨ (List.lookup n st.groups).isSome = true

/-- None of the names of S is resolved yet. -/
def NoneCompleted (st : BuilderSt) (S : List String) : Prop :=
  ∀ n ∈ S, ¬ Completed st n

/-- The group names a raw group config references: its chain list, or its
member proxies. -/
def groupRefs (cfg : RawProxyGroupCfg) : List String :=
  match cfg.chains with
  | some l => l
  | none => cfg.proxies.getD []

/-- A closed nonempty reference set: every name of S is a configured group
one of whose references lies in S again.  Any reference cycle among groups
gives such a set (see isCycle_closedRefSet). -/
def ClosedRefSet (ctx : GroupCtx) (S : List String) : Prop :=
  S ≠ [] ∧ ∀ n ∈ S, ∃ cfg, List.lookup n ctx.glist = some cfg ∧
    ∃ m ∈ S, m ∈ groupRefs cfg

/-- A reference cycle among configured groups: each listed name is a
configured group referencing the (cyclically) next listed name. -/
def IsCycle (ctx : GroupCtx) (cyc : List String) : Prop :=
  cyc ≠ [] ∧ ∀ i : Fin cyc.length, ∃ cfg,
    List.lookup (cyc.get i) ctx.glist = some cfg ∧
    cyc.get ⟨(i.val + 1) % cyc.length,
      Nat.mod_lt _ (Nat.lt_of_le_of_lt (Nat.zero_le _) i.isLt)⟩ ∈ groupRefs cfg

theorem isCycle_closedRefSet (ctx : GroupCtx) (cyc : List String)
    (h : IsCycle ctx cyc) : ClosedRefSet ctx cyc := by
  obtain ⟨hne, hstep⟩ := h
  refine ⟨hne, ?_⟩
  intro n hn
  obtain ⟨i, hi⟩ := List.mem_iff_get.mp hn
  obtain ⟨cfg, hcfg, hnext⟩ := hstep i
  rw [hi] at hcfg
  exact ⟨cfg, hcfg, _, List.get_mem _ _ _, hnext⟩

theorem not_completed_lookups (st : BuilderSt) (n : String) (h : ¬ Completed st n) :
    List.lookup n st.proxies = none ∧ List.lookup n st.groups = none := by
  rw [Completed] at h
  push_neg at h
  constructor
  · cases hp : List.lookup n st.proxies with
    | none => rfl
    | some v => exact absurd (by rw [hp]; rfl) h.1
  · cases hp : List.lookup n st.groups with
    | none => rfl
    | some v => exact absurd (by rw [hp]; rfl) h.2

theorem completed_cons_proxies (m name : String) (v : Proxy) (pl : List (String × Proxy))
    (gl : List (String × ProxyGroup)) (hne : m ≠ name) :
    Completed ⟨(name, v) :: pl, gl⟩ m ↔ Completed ⟨pl, gl⟩ m := by
  rw [Completed, Completed]
  rw [show List.lookup m ((name, v) :: pl) = List.lookup m pl from
    lookup_cons_ne m name v pl hne]

theorem completed_cons_groups (m name : String) (v : ProxyGroup) (pl : List (String × Proxy))
    (gl : List (String × ProxyGroup)) (hne : m ≠ name) :
    Completed ⟨pl, (name, v) :: gl⟩ m ↔ Completed ⟨pl, gl⟩ m := by
  rw [Completed, Completed]
  rw [show List.lookup m ((name, v) :: gl) = List.lookup m gl from
    lookup_cons_ne m name v gl hne]

theorem parse_one_proxy_found_proxy (fuel : Nat) (ctx : GroupCtx) (st : BuilderSt)
    (q : List String) (p nm : String) (single : Proxy)
    (h1 : List.lookup p st.proxies = some single) :
    parse_one_proxy fuel ctx st q p nm = BRes.ok (GeneralProxy.Single single, st, q) := by
  rw [parse_one_proxy, h1]

theorem parse_one_proxy_found_group (fuel : Nat) (ctx : GroupCtx) (st : BuilderSt)
    (q : List String) (p nm : String) (g : ProxyGroup)
    (h1 : List.lookup p st.proxies = none) (h2 : List.lookup p st.groups = some g) :
    parse_one_proxy fuel ctx st q p nm = BRes.ok (GeneralProxy.Group g, st, q) := by
  rw [parse_one_proxy, h1, h2]

theorem parse_one_proxy_noglist (fuel : Nat) (ctx : GroupCtx) (st : BuilderSt)
    (q : List String) (p nm : String)
    (h1 : List.lookup p st.proxies = none) (h2 : List.lookup p st.groups = none)
    (h3 : List.lookup p ctx.glist = none) :
    parse_one_proxy fuel ctx st q p nm =
      BRes.err ("No [" ++ p ++ "] in group [" ++ nm ++ "]") := by
  rw [parse_one_proxy, h1, h2, h3]

theorem parse_one_proxy_zero (ctx : GroupCtx) (st : BuilderSt)
    (q : List String) (p nm : String) (sub : RawProxyGroupCfg)
    (h1 : List.lookup p st.proxies = none) (h2 : List.lookup p st.groups = none)
    (h3 : List.lookup p ctx.glist = some sub) :
    parse_one_proxy 0 ctx st q p nm = BRes.outOfFuel := by
  rw [parse_one_proxy, h1, h2, h3]

theorem parse_one_proxy_rec (f2 : Nat) (ctx : GroupCtx) (st : BuilderSt)
    (q : List String) (p nm : String) (sub : RawProxyGroupCfg)
    (h1 : List.lookup p st.proxies = none) (h2 : List.lookup p st.groups = none)
    (h3 : List.lookup p ctx.glist = some sub) :
    parse_one_proxy (f2 + 1) ctx st q p nm =
      BRes.bind (parse_group f2 ctx st (qinsert nm q) p sub true) (fun r =>
        match List.lookup p r.1.groups with
        | some g => BRes.ok (GeneralProxy.Group g, r.1, qremove nm r.2)
        | none =>
          match List.lookup p r.1.proxies with
          | some single => BRes.ok (GeneralProxy.Single single, r.1, qremove nm r.2)
          | none => BRes.panicked) := by
  rw [parse_one_proxy, h1, h2, h3]

theorem parse_members_nil (fuel : Nat) (ctx : GroupCtx) (st : BuilderSt)
    (q : List String) (name : String) (arr : List GeneralProxy)
    (sel : Option GeneralProxy) :
    parse_members fuel ctx st q name [] arr sel = BRes.ok (st, q, arr, sel) := by
  rw [parse_members]

theorem parse_members_cons (fuel : Nat) (ctx : GroupCtx) (st : BuilderSt)
    (q : List String) (name p : String) (rest : List String)
    (arr : List GeneralProxy) (sel : Option GeneralProxy) :
    parse_members fuel ctx st q name (p :: rest) arr sel =
      BRes.bind (parse_one_proxy fuel ctx st q p name) (fun r =>
        parse_members fuel ctx r.2.1 r.2.2 name rest (arr ++ [r.1])
          (if p = selGet ctx name then some r.1 else sel)) := by
  rw [parse_members]

theorem parse_group_guard (fuel : Nat) (ctx : GroupCtx) (st : BuilderSt)
    (q : List String) (name : String) (cfg : RawProxyGroupCfg) (d : Bool)
    (h : ((List.lookup name st.groups).isSome || (List.lookup name st.proxies).isSome
      || q.contains name) = true) :
    parse_group fuel ctx st q name cfg d =
      if d then BRes.err ("Duplicate group name " ++ name) else BRes.ok (st, q) := by
  rw [parse_group, h]
  rfl

theorem parse_group_invalid (fuel : Nat) (ctx : GroupCtx) (st : BuilderSt)
    (q : List String) (name : String) (cfg : RawProxyGroupCfg) (d : Bool)
    (h : ((List.lookup name st.groups).isSome || (List.lookup name st.proxies).isSome
      || q.contains name) = false)
    (hv : ctx.validate cfg = false) :
    parse_group fuel ctx st q name cfg d = BRes.err ("Invalid group " ++ name) := by
  rw [parse_group, h]
  simp only [Bool.false_eq_true, if_false, if_pos hv]

theorem parse_group_chains (fuel : Nat) (ctx : GroupCtx) (st : BuilderSt)
    (q : List String) (name : String) (cfg : RawProxyGroupCfg) (d : Bool)
    (chains : List String)
    (h : ((List.lookup name st.groups).isSome || (List.lookup name st.proxies).isSome
      || q.contains name) = false)
    (hv : ctx.validate cfg = true) (hch : cfg.chains = some chains) :
    parse_group fuel ctx st q name cfg d =
      BRes.bind (parse_members fuel ctx st q name chains.reverse [] none) (fun r =>
        BRes.ok ({ r.1 with
            proxies := (name, Proxy.mk name (ProxyImpl.Chain r.2.2.1)) :: r.1.proxies },
          r.2.1)) := by
  rw [parse_group, h]
  simp only [Bool.false_eq_true, if_false, hv, hch]
  rw [if_neg (by intro hc; cases hc)]

theorem parse_group_genuine (fuel : Nat) (ctx : GroupCtx) (st : BuilderSt)
    (q : List String) (name : String) (cfg : RawProxyGroupCfg) (d : Bool)
    (h : ((List.lookup name st.groups).isSome || (List.lookup name st.proxies).isSome
      || q.contains name) = false)
    (hv : ctx.validate cfg = true) (hch : cfg.chains = none) :
    parse_group fuel ctx st q name cfg d =
      BRes.bind (parse_members fuel ctx st q name (cfg.proxies.getD []) [] none) (fun r =>
        BRes.bind (parse_providers ctx r.1 name (cfg.providers.getD []) r.2.2.1 r.2.2.2)
          (fun pr =>
          match pr.1 with
          | [] => BRes.ok (r.1, r.2.1)
          | a :: _ =>
            BRes.ok ({ r.1 with
                groups := (name, ProxyGroup.mk name pr.1 (pr.2.getD a) cfg.interface)
                  :: r.1.groups },
              r.2.1))) := by
  rw [parse_group, h]
  simp only [Bool.false_eq_true, if_false, hv, hch]
  rw [if_neg (by intro hc; cases hc)]

/-- Core cycle argument: fix a closed reference set S none of whose names is
resolved.  Then parsing any name of S, any member list touching S, or any
single reference into S can never succeed, and successful parses never
resolve a name of S. -/
theorem cycle_never_ok (ctx : GroupCtx) (S : List String)
    (hS : ∀ n ∈ S, ∃ cfg, List.lookup n ctx.glist = some cfg ∧
      ∃ m ∈ S, m ∈ groupRefs cfg) :
    ∀ fuel,
    (∀ st q name cfg d res, name ∈ S → List.lookup name ctx.glist = some cfg →
      q.contains name = false → NoneCompleted st S →
      parse_group fuel ctx st q name cfg d ≠ BRes.ok res) ∧
    (∀ ps st q nm arr sel res, (∃ p ∈ ps, p ∈ S) → NoneCompleted st S →
      parse_members fuel ctx st q nm ps arr sel ≠ BRes.ok res) ∧
    (∀ st q p nm res, p ∈ S → NoneCompleted st S →
      parse_one_proxy fuel ctx st q p nm ≠ BRes.ok res) ∧
    (∀ st q name cfg d st2 q2, parse_group fuel ctx st q name cfg d = BRes.ok (st2, q2) →
      (name ∈ S → List.lookup name ctx.glist = some cfg) → NoneCompleted st S →
      NoneCompleted st2 S) ∧
    (∀ ps st q nm arr sel st2 q2 arr2 sel2,
      parse_members fuel ctx st q nm ps arr sel = BRes.ok (st2, q2, arr2, sel2) →
      NoneCompleted st S → NoneCompleted st2 S) ∧
    (∀ st q p nm r st2 q2, parse_one_proxy fuel ctx st q p nm = BRes.ok (r, st2, q2) →
      NoneCompleted st S → NoneCompleted st2 S) := by
  intro fuel
  induction fuel using Nat.strong_induction_on with
  | _ fuel ih =>
  have hAp : ∀ st q p nm res, p ∈ S → NoneCompleted st S →
      parse_one_proxy fuel ctx st q p nm ≠ BRes.ok res := by
    intro st q p nm res hp hnc h
    have hlk := not_completed_lookups st p (hnc p hp)
    cases h3 : List.lookup p ctx.glist with
    | none =>
      rw [parse_one_proxy_noglist fuel ctx st q p nm hlk.1 hlk.2 h3] at h
      cases h
    | some sub =>
      cases fuel with
      | zero =>
        rw [parse_one_proxy_zero ctx st q p nm sub hlk.1 hlk.2 h3] at h
        cases h
      | succ f2 =>
        rw [parse_one_proxy_rec f2 ctx st q p nm sub hlk.1 hlk.2 h3] at h
        by_cases hq1 : (qinsert nm q).contains p = true
        · have hguard : ((List.lookup p st.groups).isSome
              || (List.lookup p st.proxies).isSome
              || (qinsert nm q).contains p) = true := by
            rw [hq1]
            simp
          rw [parse_group_guard f2 ctx st (qinsert nm q) p sub true hguard] at h
          simp at h
        · have hqf : (qinsert nm q).contains p = false := by
            cases hc : (qinsert nm q).contains p with
            | false => rfl
            | true => exact absurd hc hq1
          have hAg2 := (ih f2 (Nat.lt_succ_self f2)).1
          cases hr : parse_group f2 ctx st (qinsert nm q) p sub true with
          | ok a =>
            exact absurd hr (hAg2 st (qinsert nm q) p sub true a hp h3 hqf hnc)
          | err e => rw [hr] at h; simp at h
          | outOfFuel => rw [hr] at h; simp at h
          | panicked => rw [hr] at h; simp at h
  have hBp : ∀ st q p nm r st2 q2,
      parse_one_proxy fuel ctx st q p nm = BRes.ok (r, st2, q2) →
      NoneCompleted st S → NoneCompleted st2 S := by
    intro st q p nm r st2 q2 h hnc
    cases h1 : List.lookup p st.proxies with
    | some single =>
      rw [parse_one_proxy_found_proxy fuel ctx st q p nm single h1] at h
      cases h
      exact hnc
    | none =>
      cases h2 : List.lookup p st.groups with
      | some g =>
        rw [parse_one_proxy_found_group fuel ctx st q p nm g h1 h2] at h
        cases h
        exact hnc
      | none =>
        cases h3 : List.lookup p ctx.glist with
        | none =>
          rw [parse_one_proxy_noglist fuel ctx st q p nm h1 h2 h3] at h
          cases h
        | some sub =>
          cases fuel with
          | zero =>
            rw [parse_one_proxy_zero ctx st q p nm sub h1 h2 h3] at h
            cases h
          | succ f2 =>
            rw [parse_one_proxy_rec f2 ctx st q p nm sub h1 h2 h3] at h
            obtain ⟨rr, hrr, h4⟩ := bind_ok_elim _ _ _ h
            have hBg2 := (ih f2 (Nat.lt_succ_self f2)).2.2.2.1
            have hnc2 : NoneCompleted rr.1 S :=
              hBg2 st (qinsert nm q) p sub true rr.1 rr.2 hrr (fun _ => h3) hnc
            cases h5 : List.lookup p rr.1.groups with
            | some g => rw [h5] at h4; cases h4; exact hnc2
            | none =>
              rw [h5] at h4
              cases h6 : List.lookup p rr.1.proxies with
              | some single => rw [h6] at h4; cases h4; exact hnc2
              | none => rw [h6] at h4; cases h4
  have hAm : ∀ ps st q nm arr sel res, (∃ p ∈ ps, p ∈ S) → NoneCompleted st S →
      parse_members fuel ctx st q nm ps arr sel ≠ BRes.ok res := by
    intro ps
    induction ps with
    | nil =>
      intro st q nm arr sel res hex _ _
      obtain ⟨p, hp, _⟩ := hex
      cases hp
    | cons p rest ihl =>
      intro st q nm arr sel res hex hnc h
      rw [parse_members_cons] at h
      by_cases hpS : p ∈ S
      · cases hr : parse_one_proxy fuel ctx st q p nm with
        | ok a => exact absurd hr (hAp st q p nm a hpS hnc)
        | err e => rw [hr] at h; simp at h
        | outOfFuel => rw [hr] at h; simp at h
        | panicked => rw [hr] at h; simp at h
      · obtain ⟨x, hx, hxS⟩ := hex
        have hxrest : x ∈ rest := by
          rcases List.mem_cons.mp hx with h1 | h1
          · subst h1; exact absurd hxS hpS
          · exact h1
        cases hr : parse_one_proxy fuel ctx st q p nm with
        | ok a =>
          rw [hr] at h
          simp only [BRes.bind_ok] at h
          exact ihl a.2.1 a.2.2 nm _ _ res ⟨x, hxrest, hxS⟩
            (hBp st q p nm a.1 a.2.1 a.2.2 hr hnc) h
        | err e => rw [hr] at h; simp at h
        | outOfFuel => rw [hr] at h; simp at h
        | panicked => rw [hr] at h; simp at h
  have hBm : ∀ ps st q nm arr sel st2 q2 arr2 sel2,
      parse_members fuel ctx st q nm ps arr sel = BRes.ok (st2, q2, arr2, sel2) →
      NoneCompleted st S → NoneCompleted st2 S := by
    intro ps
    induction ps with
    | nil =>
      intro st q nm arr sel st2 q2 arr2 sel2 h hnc
      rw [parse_members_nil] at h
      cases h
      exact hnc
    | cons p rest ihl =>
      intro st q nm arr sel st2 q2 arr2 sel2 h hnc
      rw [parse_members_cons] at h
      obtain ⟨r, hr, h2⟩ := bind_ok_elim _ _ _ h
      exact ihl r.2.1 r.2.2 nm _ _ st2 q2 arr2 sel2 h2
        (hBp st q p nm r.1 r.2.1 r.2.2 hr hnc)
  have hAg : ∀ st q name cfg d res, name ∈ S → List.lookup name ctx.glist = some cfg →
      q.contains name = false → NoneCompleted st S →
      parse_group fuel ctx st q name cfg d ≠ BRes.ok res := by
    intro st q name cfg d res hmem hlk2 hqc hnc h
    have hlk := not_completed_lookups st name (hnc name hmem)
    have hguard : ((List.lookup name st.groups).isSome
        || (List.lookup name st.proxies).isSome || q.contains name) = false := by
      rw [hlk.1, hlk.2, hqc]
      rfl
    cases hv : ctx.validate cfg with
    | false =>
      rw [parse_group_invalid fuel ctx st q name cfg d hguard hv] at h
      cases h
    | true =>
      obtain ⟨cfg', hcfg', m, hmS, hmref⟩ := hS name hmem
      have hcfgeq : cfg' = cfg := Option.some.inj (hcfg'.symm.trans hlk2)
      rw [hcfgeq] at hmref
      cases hch : cfg.chains with
      | some chains =>
        rw [parse_group_chains fuel ctx st q name cfg d chains hguard hv hch] at h
        have hrefs : groupRefs cfg = chains := by rw [groupRefs, hch]
        rw [hrefs] at hmref
        obtain ⟨r, hr, _⟩ := bind_ok_elim _ _ _ h
        exact absurd hr (hAm chains.reverse st q name [] none r
          ⟨m, List.mem_reverse.mpr hmref, hmS⟩ hnc)
      | none =>
        rw [parse_group_genuine fuel ctx st q name cfg d hguard hv hch] at h
        have hrefs : groupRefs cfg = cfg.proxies.getD [] := by rw [groupRefs, hch]
        rw [hrefs] at hmref
        obtain ⟨r, hr, _⟩ := bind_ok_elim _ _ _ h
        exact absurd hr (hAm (cfg.proxies.getD []) st q name [] none r
          ⟨m, hmref, hmS⟩ hnc)
  have hBg : ∀ st q name cfg d st2 q2,
      parse_group fuel ctx st q name cfg d = BRes.ok (st2, q2) →
      (name ∈ S → List.lookup name ctx.glist = some cfg) → NoneCompleted st S →
      NoneCompleted st2 S := by
    intro st q name cfg d st2 q2 h hlink hnc
    by_cases hdup : ((List.lookup name st.groups).isSome
        || (List.lookup name st.proxies).isSome || q.contains name) = true
    · rw [parse_group_guard fuel ctx st q name cfg d hdup] at h
      cases d with
      | true => simp at h
      | false =>
        simp only [Bool.false_eq_true, if_false] at h
        cases h
        exact hnc
    · have hguard : ((List.lookup name st.groups).isSome
          || (List.lookup name st.proxies).isSome || q.contains name) = false := by
        cases hg : ((List.lookup name st.groups).isSome
            || (List.lookup name st.proxies).isSome || q.contains name) with
        | false => rfl
        | true => exact absurd hg hdup
      have hqc : q.contains name = false := by
        cases hc : q.contains name with
        | false => rfl
        | true => rw [hc] at hguard; simp at hguard
      by_cases hmem : name ∈ S
      · exact absurd h (hAg st q name cfg d (st2, q2) hmem (hlink hmem) hqc hnc)
      · cases hv : ctx.validate cfg with
        | false =>
          rw [parse_group_invalid fuel ctx st q name cfg d hguard hv] at h
          cases h
        | true =>
          cases hch : cfg.chains with
          | some chains =>
            rw [parse_group_chains fuel ctx st q name cfg d chains hguard hv hch] at h
            obtain ⟨r, hr, h2⟩ := bind_ok_elim _ _ _ h
            have hnc2 := hBm chains.reverse st q name [] none r.1 r.2.1 r.2.2.1 r.2.2.2
              hr hnc
            cases h2
            intro mm hmm hcomp
            have hne : mm ≠ name := fun he => hmem (he ▸ hmm)
            exact hnc2 mm hmm
              ((completed_cons_proxies mm name _ r.1.proxies r.1.groups hne).mp hcomp)
          | none =>
            rw [parse_group_genuine fuel ctx st q name cfg d hguard hv hch] at h
            obtain ⟨r, hr, h2⟩ := bind_ok_elim _ _ _ h
            obtain ⟨pr, _, h3⟩ := bind_ok_elim _ _ _ h2
            have hnc2 := hBm (cfg.proxies.getD []) st q name [] none r.1 r.2.1 r.2.2.1
              r.2.2.2 hr hnc
            cases hprm : pr.1 with
            | nil =>
              rw [hprm] at h3
              cases h3
              exact hnc2
            | cons a arest =>
              rw [hprm] at h3
              cases h3
              intro mm hmm hcomp
              have hne : mm ≠ name := fun he => hmem (he ▸ hmm)
              exact hnc2 mm hmm
                ((completed_cons_groups mm name _ r.1.proxies r.1.groups hne).mp hcomp)
  exact ⟨hAg, hAm, hAp, hBg, hBm, hBp⟩

theorem parse_all_cycle_not_ok (ctx : GroupCtx) (S : List String)
    (hS : ∀ n ∈ S, ∃ cfg, List.lookup n ctx.glist = some cfg ∧
      ∃ m ∈ S, m ∈ groupRefs cfg) :
    ∀ (entries : List (String × RawProxyGroupCfg)) (fuel : Nat) (st : BuilderSt)
      (q : List String) (res : BuilderSt × List String),
      (∀ nm cfg, (nm, cfg) ∈ entries → List.lookup nm ctx.glist = some cfg) →
      (∀ n ∈ S, q.contains n = false) →
      (∃ nm cfg, (nm, cfg) ∈ entries ∧ nm ∈ S) →
      NoneCompleted st S →
      parse_all_groups fuel ctx st q entries ≠ BRes.ok res := by
  intro entries
  induction entries with
  | nil =>
    intro fuel st q res _ _ hex _ _
    obtain ⟨nm, cfg, hmem, _⟩ := hex
    cases hmem
  | cons e rest ih =>
    obtain ⟨name, cfg⟩ := e
    intro fuel st q res hlink hq hex hnc h
    rw [parse_all_groups] at h
    by_cases hmemN : name ∈ S
    · have hqn := hq name hmemN
      have hAg := (cycle_never_ok ctx S hS fuel).1
      cases hr : parse_group fuel ctx st q name cfg false with
      | ok a =>
        exact absurd hr (hAg st q name cfg false a hmemN
          (hlink name cfg (List.mem_cons_self _ _)) hqn hnc)
      | err e2 => rw [hr] at h; simp at h
      | outOfFuel => rw [hr] at h; simp at h
      | panicked => rw [hr] at h; simp at h
    · cases hr : parse_group fuel ctx st q name cfg false with
      | ok a =>
        rw [hr] at h
        simp only [BRes.bind_ok] at h
        have hnc2 := (cycle_never_ok ctx S hS fuel).2.2.2.1 st q name cfg false a.1 a.2
          hr (fun hmm => absurd hmm hmemN) hnc
        have hqeq := (q_preserve ctx fuel).1 st q name cfg false a.1 a.2 hr
        have hq2 : ∀ n ∈ S, a.2.contains n = false := by
          intro n hn
          rw [hqeq]
          exact hq n hn
        have hex2 : ∃ nm cfg2, (nm, cfg2) ∈ rest ∧ nm ∈ S := by
          obtain ⟨nm, cfg2, hmem2, hnmS⟩ := hex
          rcases List.mem_cons.mp hmem2 with h1 | h1
          · exfalso
            have hfst := congrArg Prod.fst h1
            simp at hfst
            subst hfst
            exact hmemN hnmS
          · exact ⟨nm, cfg2, h1, hnmS⟩
        exact ih fuel a.1 a.2 res
          (fun nm cfg2 hm => hlink nm cfg2 (List.mem_cons_of_mem _ hm)) hq2 hex2 hnc2 h
      | err e2 => rw [hr] at h; simp at h
      | outOfFuel => rw [hr] at h; simp at h
      | panicked => rw [hr] at h; simp at h

/-- C7: group resolution that reaches a name already in the in-progress
queued set (as every recursive resolution does, dup_as_error being set)
returns the duplicate error immediately instead of recursing; and building
any group set whose reference graph contains a cycle never succeeds, at any
recursion depth. -/
theorem claim_C7 :
    (∀ (fuel : Nat) (ctx : GroupCtx) (st : BuilderSt) (q : List String)
       (name : String) (cfg : RawProxyGroupCfg),
      q.contains name = true →
      parse_group fuel ctx st q name cfg true =
        BRes.err ("Duplicate group name " ++ name)) ∧
    (∀ (fuel : Nat) (ctx : GroupCtx) (st : BuilderSt) (cyc : List String)
       (res : BuilderSt × List String),
      IsCycle ctx cyc →
      (ctx.glist.map Prod.fst).Nodup →
      NoneCompleted st cyc →
      parse_all_groups fuel ctx st [] ctx.glist ≠ BRes.ok res) := by
  constructor
  · intro fuel ctx st q name cfg hq
    have hguard : ((List.lookup name st.groups).isSome
        || (List.lookup name st.proxies).isSome || q.contains name) = true := by
      rw [hq]
      simp
    rw [parse_group_guard fuel ctx st q name cfg true hguard]
    simp
  · intro fuel ctx st cyc res hcyc hnodup hnc
    have hclosed := isCycle_closedRefSet ctx cyc hcyc
    have hS := hclosed.2
    have hlink : ∀ nm cfg, (nm, cfg) ∈ ctx.glist → List.lookup nm ctx.glist = some cfg :=
      fun nm cfg hm => mem_lookup_nodup nm cfg ctx.glist hnodup hm
    have hex : ∃ nm cfg, (nm, cfg) ∈ ctx.glist ∧ nm ∈ cyc := by
      cases hcm : cyc with
      | nil => exact absurd hcm hclosed.1
      | cons c0 crest =>
        have hc0 : c0 ∈ cyc := by rw [hcm]; exact List.mem_cons_self _ _
        obtain ⟨cfg0, hlkp, _⟩ := hS c0 hc0
        exact ⟨c0, cfg0, lookup_mem c0 cfg0 ctx.glist hlkp, List.mem_cons_self _ _⟩
    have hqe : ∀ n ∈ cyc, ([] : List String).contains n = false := by
      intro n _
      rfl
    exact parse_all_cycle_not_ok ctx cyc hS ctx.glist fuel st [] res hlink hqe hex hnc

/-- Group a referencing b. -/
def cfgRefB : RawProxyGroupCfg :=
  { proxies := some ["b"], chains := none, providers := none, interface := none }

/-- Group b referencing a. -/
def cfgRefA : RawProxyGroupCfg :=
  { proxies := some ["a"], chains := none, providers := none, interface := none }

/-- A configuration whose two groups reference each other. -/
def ctxCycle : GroupCtx :=
  { group_selection := [], proxy_schema := [],
    glist := [("a", cfgRefB), ("b", cfgRefA)],
    regexCompile := fun _ => none, validate := fun _ => true }

theorem claim_C7_witness :
    (parse_group 3 ctxCycle builderEmptySt ["a"] "a" cfgRefB true =
      BRes.err ("Duplicate group name " ++ "a")) ∧
    parse_all_groups 3 ctxCycle builderEmptySt [] ctxCycle.glist ≠
      BRes.ok (builderEmptySt, []) := by
  constructor
  · exact claim_C7.1 3 ctxCycle builderEmptySt ["a"] "a" cfgRefB (by rfl)
  · apply claim_C7.2 3 ctxCycle builderEmptySt ["a", "b"] (builderEmptySt, [])
    · constructor
      · simp
      · intro i
        fin_cases i
        · refine ⟨cfgRefB, rfl, ?_⟩
          show (["a", "b"] : List String).get ⟨1 % 2, by decide⟩ ∈ groupRefs cfgRefB
          simp [groupRefs, cfgRefB]
        · refine ⟨cfgRefA, rfl, ?_⟩
          show (["a", "b"] : List String).get ⟨2 % 2, by decide⟩ ∈ groupRefs cfgRefA
          simp [groupRefs, cfgRefA]
    · simp [ctxCycle]
    · intro n hn
      rcases (by simpa using hn : n = "a" ∨ n = "b") with h | h <;>
        · subst h
          rw [Completed]
          simp [builderEmptySt, List.lookup]
